import Mathlib

/-!
The ride_sharing program: a shallow embedding of `main.go`.

The four package-level maps of `main.go` (`nameUserMap`, `ownerVehiclesMap`,
`rides`, `ownerRideStats`) become the fields of `Store`; every function that
reads or writes them takes the store and returns the new one.

Modelling conventions
* A Go `map` is an association list with pairwise distinct keys (`GoMap`).  The
  order of the list carries no meaning: every `for … range rides` loop of the
  source draws its own enumeration of the map, so the functions that loop over
  `rides` with an order-sensitive body take that enumeration as an argument
  (`iter` for `selectRide`, `ord` for the search of `findPossibleRides`) and the
  theorems quantify over every enumeration that is a permutation of the map.
* The inner `map[string]int` of `ownerRideStats` is only ever built by the
  literal `{"offered": 0, "taken": 0}` and then updated at those two keys, so
  it is the record `Stats`.  Reading `ownerRideStats[u]` for an absent `u`
  yields the nil map; writing into the nil map is a run-time panic.
* A run-time panic is the result `none`.
* Go `int` is 64 bit.  `AvailableSeats -= seats` works on operands that come
  straight from the input, so it is modelled with two's-complement wrap-around
  (`subInt`).  The counters `offered`/`taken` and `len(rides)` only grow by one
  per executed command and are modelled exactly.
* Go strings are Lean `String`s; `strings.Split` and `strings.HasPrefix` work
  on the character list.
* Console output is not part of the state; each function returns a tag for the
  message it prints (or the values it returns).
-/

namespace RideSharing

/-! ## Data model (`main.go` lines 11-36) -/

structure User where
  Name : String
  Gender : String
  Age : Int
  deriving DecidableEq, Repr

structure Vehicle where
  Owner : String
  Model : String
  NumberPlate : String
  deriving DecidableEq, Repr

structure Ride where
  ID : Int
  Driver : String
  Origin : String
  Destination : String
  AvailableSeats : Int
  Vehicle : Vehicle
  Active : Bool
  deriving DecidableEq, Repr

/-- The inner map of `ownerRideStats`: the two counters `"offered"` and `"taken"`. -/
structure Stats where
  offered : Int
  taken : Int
  deriving DecidableEq, Repr

/-- A Go map as an association list; well-formed when its keys are distinct. -/
abbrev GoMap (κ : Type) (α : Type) := List (κ × α)

namespace GoMap

variable {κ α : Type} [DecidableEq κ]

/-- The lookup `v, ok := m[k]`. -/
def get? : GoMap κ α → κ → Option α
  | [], _ => none
  | (k1, v) :: t, k => if k1 = k then some v else get? t k

/-- The assignment `m[k] = v`. -/
def set : GoMap κ α → κ → α → GoMap κ α
  | [], k, v => [(k, v)]
  | (k1, v1) :: t, k, v => if k1 = k then (k, v) :: t else (k1, v1) :: set t k v

/-- The keys of the map. -/
def keys (m : GoMap κ α) : List κ := m.map Prod.fst

/-- The values of the map. -/
def values (m : GoMap κ α) : List α := m.map Prod.snd

/-- The built-in `len(m)`. -/
def len (m : GoMap κ α) : Int := (m.length : Int)

/-- Well-formedness: no key occurs twice. -/
def WF (m : GoMap κ α) : Prop := (keys m).Nodup

end GoMap

/-- The package-level variables of `main.go`. -/
structure Store where
  nameUserMap : GoMap String User
  ownerVehiclesMap : GoMap String (List Vehicle)
  rides : GoMap Int Ride
  ownerRideStats : GoMap String Stats
  deriving DecidableEq, Repr

/-- The store at program start: four empty maps. -/
def Store.empty : Store := ⟨[], [], [], []⟩

/-! ## Machine arithmetic and strings -/

/-- Reduction of an integer to the 64-bit two's-complement range of Go `int`. -/
def wrap64 (x : Int) : Int := (x + 2 ^ 63) % 2 ^ 64 - 2 ^ 63

/-- Go `a - b` on `int`. -/
def subInt (a b : Int) : Int := wrap64 (a - b)

/-- The scan of `strings.Split` for a non-empty separator: `skip` counts the
characters of a separator occurrence still to be dropped, `cur` is the piece
being collected. -/
def splitGo (sep : List Char) : List Char → Nat → List Char → List (List Char)
  | [], _, cur => [cur]
  | _ :: rest, skip + 1, cur => splitGo sep rest skip cur
  | c :: rest, 0, cur =>
    if sep.isPrefixOf (c :: rest) then cur :: splitGo sep rest (sep.length - 1) []
    else splitGo sep rest 0 (cur ++ [c])

/-- Go `strings.Split(s, sep)` for a non-empty `sep`. -/
def Split (s sep : String) : List String :=
  (splitGo sep.data s.data 0 []).map String.mk

/-- Go `strings.HasPrefix(s, p)`. -/
def HasPrefix (s p : String) : Bool := p.data.isPrefixOf s.data

/-! ## `selectRide` (`main.go` lines 117-166) -/

/-- The filter condition of line 120. -/
def matchesRequest (source destination : String) (seats : Int) (ride : Ride) : Bool :=
  ride.Origin == source && ride.Destination == destination
    && decide (ride.AvailableSeats ≥ seats) && ride.Active

/-- The loop of lines 131-137: the state is `(selectedRide, maxSeats)`. -/
def mostVacantLoop (filteredRides : List Ride) (init : Ride × Int) : Ride × Int :=
  filteredRides.foldl
    (fun st r => if r.AvailableSeats > st.2 then (r, r.AvailableSeats) else st) init

/-- Lines 153-156: decrement the seats of the ride stored under `selectedRide.ID`. -/
def decrementSeats (rides : GoMap Int Ride) (selectedRide : Ride) (seats : Int) :
    GoMap Int Ride :=
  match rides.get? selectedRide.ID with
  | some ride =>
    let ride1 := { ride with AvailableSeats := subInt ride.AvailableSeats seats }
    rides.set ride1.ID ride1
  | none => rides

/-- Lines 158-163: the update of the rider's statistics.  With no record for the
rider the increment writes into the nil map and panics; with a record, the
record is replaced by a fresh one and `taken` becomes 1. -/
def updateTaken (stats : GoMap String Stats) (user : String) : Option (GoMap String Stats) :=
  match stats.get? user with
  | none => none
  | some _ => some (stats.set user { offered := 0, taken := 0 + 1 })

/-- Lines 129-151: the choice among the filtered rides, `first` being
`filteredRides[0]`.  The outer `none` is a run-time panic (index out of range
at line 139), `some none` is the `found == false` exit of line 149. -/
def chooseRide (filteredRides : List Ride) (first : Ride) (selectionStrategy : String) :
    Option (Option Ride) :=
  if selectionStrategy = "Most Vacant" then
    some (some (mostVacantLoop filteredRides (first, 0)).1)
  else if HasPrefix selectionStrategy "Preferred Vehicle=" then
    match (Split selectionStrategy "=")[1]? with
    | none => none
    | some preferredVehicle =>
      some (filteredRides.find? (fun r => r.Vehicle.Model == preferredVehicle))
  else some (some first)

/-- The function `selectRide`.  `iter` is the enumeration of the values of `rides`
drawn by the loop of line 119.  The result is `none` on a run-time panic and
otherwise the new store, the returned id and the returned error. -/
def selectRide (s : Store) (iter : List Ride) (user source destination : String)
    (seats : Int) (selectionStrategy : String) : Option (Store × Int × Option String) :=
  let filteredRides := iter.filter (matchesRequest source destination seats)
  match filteredRides with
  | [] => some (s, -1, some "no rides found")
  | first :: _ =>
    match chooseRide filteredRides first selectionStrategy with
    | none => none
    | some none => some (s, -1, some "no rides found with the preferred vehicle")
    | some (some selectedRide) =>
      let rides1 := decrementSeats s.rides selectedRide seats
      match updateTaken s.ownerRideStats user with
      | none => none
      | some stats1 =>
        some ({ s with rides := rides1, ownerRideStats := stats1 }, selectedRide.ID, none)

/-! ## `toInt` (`main.go` lines 194-198)

`fmt.Sscanf(input, "%d", &value)` skips leading blanks (a newline is an error),
takes an optional sign and a non-empty run of decimal digits, and converts them
with `strconv.ParseInt(tok, 10, 64)`; on any error `value` keeps its zero
value.  Input after the number is ignored. -/

/-- The range table of `isSpace` in Go's `fmt/scan.go`. -/
def isSpace (c : Char) : Bool :=
  let n := c.toNat
  (0x0009 ≤ n && n ≤ 0x000d) || n == 0x0020 || n == 0x0085 || n == 0x00a0 || n == 0x1680
    || (0x2000 ≤ n && n ≤ 0x200a) || (0x2028 ≤ n && n ≤ 0x2029) || n == 0x202f
    || n == 0x205f || n == 0x3000

/-- The method `SkipSpace` of Go's scanner for `Sscanf`; `none` is the
"unexpected newline" error. -/
def skipSpace : List Char → Option (List Char)
  | [] => some []
  | c :: rest =>
    if c = '\n' then none
    else if isSpace c then skipSpace rest
    else some (c :: rest)

/-- The value of a run of decimal digits, most significant first. -/
def digitsValue (ds : List Char) : Int :=
  ds.foldl (fun acc d => acc * 10 + ((d.toNat - 48 : Nat) : Int)) 0

/-- The function `toInt`. -/
def toInt (input : String) : Int :=
  match skipSpace input.data with
  | none => 0
  | some rest =>
    let neg := rest.head? == some '-'
    let body := if rest.head? == some '-' || rest.head? == some '+' then rest.tail else rest
    let ds := body.takeWhile Char.isDigit
    if ds.isEmpty then 0
    else
      let v := if neg then - digitsValue ds else digitsValue ds
      if - 2 ^ 63 ≤ v ∧ v < 2 ^ 63 then v else 0

/-! ## Registration (`main.go` lines 45-66) -/

/-- The function `addUser`; the string is the line it prints (without the record). -/
def addUser (s : Store) (userDetail : String) : Store × String :=
  match Split userDetail ", " with
  | [name, gender, age] =>
    let user : User := { Name := name, Gender := gender, Age := toInt age }
    ({ s with
        nameUserMap := s.nameUserMap.set user.Name user,
        ownerRideStats := s.ownerRideStats.set user.Name { offered := 0, taken := 0 } },
      "User added:")
  | _ => (s, "Invalid user details")

/-- The function `addVehicle`. -/
def addVehicle (s : Store) (vehicleDetail : String) : Store × String :=
  match Split vehicleDetail ", " with
  | [owner, model, plate] =>
    let vehicleData : Vehicle := { Owner := owner, Model := model, NumberPlate := plate }
    ({ s with
        ownerVehiclesMap := s.ownerVehiclesMap.set vehicleData.Owner
          (((s.ownerVehiclesMap.get? vehicleData.Owner).getD []) ++ [vehicleData]) },
      "Vehicle added for")
  | _ => (s, "Invalid vehicle details")

/-! ## `offerRide` and `findVehicle` (`main.go` lines 68-115) -/

/-- The function `findVehicle`: the first vehicle of the owner with the model and
the plate; `none` is the nil pointer. -/
def findVehicle (s : Store) (owner vehicleModel numberPlate : String) : Option Vehicle :=
  ((s.ownerVehiclesMap.get? owner).getD []).find?
    (fun v => vehicleModel == v.Model && numberPlate == v.NumberPlate)

/-- The loop of lines 87-92: does an active ride carry this vehicle?  The loop
only reports whether such a ride exists, so the order of the enumeration does
not matter. -/
def vehicleActive (rides : GoMap Int Ride) (vehicleData : Vehicle) : Bool :=
  rides.values.any (fun r => r.Vehicle == vehicleData && r.Active)

/-- Line 104, `ownerRideStats[driver]["offered"]++`: a panic when the driver has
no statistics record (write into the nil map). -/
def incOffered (stats : GoMap String Stats) (driver : String) : Option (GoMap String Stats) :=
  match stats.get? driver with
  | none => none
  | some st => some (stats.set driver { st with offered := st.offered + 1 })

/-- Lines 81-105 of `offerRide`, after the fields of the line have been parsed.
`none` is a run-time panic; the string is the printed message. -/
def offerRideFields (s : Store) (driver origin : String) (availableSeats : Int)
    (vehicleModel numberPlate destination : String) : Option (Store × String) :=
  match findVehicle s driver vehicleModel numberPlate with
  | none => some (s, "Vehicle not found")
  | some vehicleData =>
    if vehicleActive s.rides vehicleData then
      some (s, "Ride already active for this vehicle")
    else
      let ride : Ride :=
        { ID := s.rides.len, Driver := driver, Origin := origin, Destination := destination,
          AvailableSeats := availableSeats, Vehicle := vehicleData, Active := true }
      let rides1 := s.rides.set s.rides.len ride
      match incOffered s.ownerRideStats driver with
      | none => none
      | some stats1 =>
        some ({ s with rides := rides1, ownerRideStats := stats1 },
          "Ride offered:: and ride details:: ")

/-- The expression `strings.Split(field, "=")[1]`; `none` is the index-out-of-range
panic. -/
def afterEq (field : String) : Option String := (Split field "=")[1]?

/-- The function `offerRide`. -/
def offerRide (s : Store) (rideDetail : String) : Option (Store × String) :=
  match Split rideDetail ", " with
  | [driver, f1, f2, f3, numberPlate, f5] =>
    match afterEq f1, afterEq f2, afterEq f3, afterEq f5 with
    | some origin, some seats, some vehicleModel, some destination =>
      offerRideFields s driver origin (toInt seats) vehicleModel numberPlate destination
    | _, _, _, _ => none
  | _ => some (s, "Invalid vehicle details")

/-! ## `endRide` (`main.go` lines 168-177) -/

/-- The zero value of `Ride`, which `rides[rideID]` yields for an absent key. -/
def Ride.zero : Ride :=
  { ID := 0, Driver := "", Origin := "", Destination := "", AvailableSeats := 0,
    Vehicle := { Owner := "", Model := "", NumberPlate := "" }, Active := false }

/-- The function `endRide`. -/
def endRide (s : Store) (rideID : Int) : Store × String :=
  if rideID < 0 ∨ rideID ≥ s.rides.len then (s, "Invalid ride ID")
  else
    let ride := (s.rides.get? rideID).getD Ride.zero
    let ride1 := { ride with Active := false }
    ({ s with rides := s.rides.set ride1.ID ride1 }, "Ride ended:")

/-! ## `findPossibleRides` (`main.go` lines 296-326) -/

/-- The `for … range rides` loop in the body of the closure `dfs` (lines 302-319),
run over the enumeration `rides`; `recur` is the recursive call of line 316 and
`possibleRoutes` the captured accumulator. -/
def dfsLoop (recur : String → List Ride → List (List Ride) → Option (List (List Ride)))
    (destination : String) (seats : Int) (currentLocation : String) (path : List Ride)
    (rides : List Ride) (possibleRoutes : List (List Ride)) : Option (List (List Ride)) :=
  rides.foldlM
    (fun routes ride =>
      if ride.Origin == currentLocation && ride.Active
          && decide (seats ≤ ride.AvailableSeats) then
        if ride.Destination == destination && ride.Active
            && decide (seats ≤ ride.AvailableSeats) then
          some (routes ++ [path ++ [ride]])
        else recur ride.Destination (path ++ [ride]) routes
      else some routes)
    possibleRoutes

/-- The closure `dfs`.  `ord path` is the enumeration of `rides` drawn by the loop
of the call whose argument is `path`.  The recursion of the source has no
bound; here the first argument bounds its depth and `none` means the bound was
hit. -/
def dfs (ord : List Ride → List Ride) (destination : String) (seats : Int) :
    Nat → String → List Ride → List (List Ride) → Option (List (List Ride))
  | 0, _, _, _ => none
  | fuel + 1, currentLocation, path, possibleRoutes =>
    dfsLoop (dfs ord destination seats fuel) destination seats currentLocation path (ord path)
      possibleRoutes

/-- The function `findPossibleRides`, with a bound on the depth of the search. -/
def findPossibleRides (ord : List Ride → List Ride) (fuel : Nat)
    (source destination : String) (seats : Int) : Option (List (List Ride)) :=
  dfs ord destination seats fuel source [] []

/-! ## Reachable stores -/

/-- The stores the program can be in: the empty store of program start, closed
under the five state-changing commands of the menu.  A command that panics ends
the program and yields no store.  The arguments `seats` and `rideID` range over
all integers, which includes every Go `int`. -/
inductive Reachable : Store → Prop
  | empty : Reachable Store.empty
  | addUser (s : Store) (userDetail : String) :
      Reachable s → Reachable (addUser s userDetail).1
  | addVehicle (s : Store) (vehicleDetail : String) :
      Reachable s → Reachable (addVehicle s vehicleDetail).1
  | offerRide (s : Store) (rideDetail : String) (s1 : Store) (msg : String) :
      Reachable s → offerRide s rideDetail = some (s1, msg) → Reachable s1
  | selectRide (s : Store) (iter : List Ride) (user source destination : String)
      (seats : Int) (selectionStrategy : String) (s1 : Store) (id : Int) (err : Option String) :
      Reachable s → iter.Perm s.rides.values →
      selectRide s iter user source destination seats selectionStrategy = some (s1, id, err) →
      Reachable s1
  | endRide (s : Store) (rideID : Int) :
      Reachable s → Reachable (endRide s rideID).1

/-- The keys of `rides` are `0, …, n-1` and every ride is stored under its own id. -/
def DenseIds (rides : GoMap Int Ride) : Prop :=
  rides.keys = (List.range rides.length).map (fun (n : Nat) => (n : Int)) ∧ ∀ e ∈ rides, e.2.ID = e.1

/-- No two distinct entries of `rides` are active rides with equal vehicles. -/
def OneActivePerVehicle (rides : GoMap Int Ride) : Prop :=
  ∀ e1 ∈ rides, ∀ e2 ∈ rides, e1.1 ≠ e2.1 → e1.2.Active = true → e2.2.Active = true →
    e1.2.Vehicle ≠ e2.2.Vehicle

/-! ## Command sequences (`main.go` lines 200-294) -/

/-- The state-changing commands of the menu loop of `main`, with their inputs.
For `selectRide` the command also carries the enumeration of `rides` that the
filter loop draws. -/
inductive Command where
  | addUser (userDetail : String)
  | addVehicle (vehicleDetail : String)
  | offerRide (rideDetail : String)
  | selectRide (iter : List Ride) (user source destination : String) (seats : Int)
      (selectionStrategy : String)
  | endRide (rideID : Int)
  deriving DecidableEq, Repr

/-- One turn of the menu loop: the store after the command; `none` when the
command panics (or when `iter` is not an enumeration of the rides). -/
def exec (s : Store) : Command → Option Store
  | .addUser userDetail => some (addUser s userDetail).1
  | .addVehicle vehicleDetail => some (addVehicle s vehicleDetail).1
  | .offerRide rideDetail => (offerRide s rideDetail).map Prod.fst
  | .selectRide iter user source destination seats selectionStrategy =>
    if iter.Perm s.rides.values then
      (selectRide s iter user source destination seats selectionStrategy).map Prod.fst
    else none
  | .endRide rideID => some (endRide s rideID).1

/-- The store after a sequence of commands issued from program start. -/
def run (cmds : List Command) : Option Store := cmds.foldlM exec Store.empty

/-- The registrations and offers of `addDummyData`, lines 251-270. -/
def dummyOffers : List Command :=
  [ .addUser "Rohan, M, 36",
    .addVehicle "Rohan, Swift, KA-01-12345",
    .addUser "Shashank, M, 29",
    .addVehicle "Shashank, Baleno, TS-05-62395",
    .addUser "Nandini, F, 29",
    .addUser "Shipra, F, 27",
    .addVehicle "Shipra, Polo, KA-05-41491",
    .addVehicle "Shipra, Activa, KA-12-12332",
    .addUser "Gaurav, M, 29",
    .addUser "Rahul, M, 35",
    .addVehicle "Rahul, XUV, KA-05-1234",
    .addVehicle "Rohan, Polo, KA-01-44252",
    .offerRide "Rohan, Origin=Hyderabad, Available Seats=1, Vehicle=Swift, KA-01-12345, Destination=Bangalore",
    .offerRide "Shipra, Origin=Bangalore, Available Seats=1, Vehicle=Activa, KA-12-12332, Destination=Mysore",
    .offerRide "Shipra, Origin=Bangalore, Available Seats=2, Vehicle=Polo, KA-05-41491, Destination=Mysore",
    .offerRide "Shashank, Origin=Hyderabad, Available Seats=2, Vehicle=Baleno, TS-05-62395, Destination=Bangalore",
    .offerRide "Rahul, Origin=Pune, Available Seats=5, Vehicle=XUV, KA-05-1234, Destination=Bangalore",
    .offerRide "Rohan, Origin=Mumbai, Available Seats=1, Vehicle=Swift, KA-01-12345, Destination=Delhi",
    .offerRide "Rohan, Origin=Mumbai, Available Seats=1, Vehicle=Polo, KA-01-44252, Destination=Pune" ]

/-- The store after `addDummyData` has made its registrations and offers. -/
def dummyStore : Store := (run dummyOffers).getD Store.empty

/-- Two offers on the same route with negative seat counts, and a registered rider. -/
def negSeatOffers : List Command :=
  [ .addUser "Shipra, F, 27",
    .addVehicle "Shipra, Activa, KA-12-12332",
    .addVehicle "Shipra, Polo, KA-05-41491",
    .addUser "Nandini, F, 29",
    .offerRide "Shipra, Origin=Bangalore, Available Seats=-2, Vehicle=Activa, KA-12-12332, Destination=Mysore",
    .offerRide "Shipra, Origin=Bangalore, Available Seats=-1, Vehicle=Polo, KA-05-41491, Destination=Mysore" ]

/-- The store after `negSeatOffers`. -/
def negSeatStore : Store := (run negSeatOffers).getD Store.empty

/-- The store component of a result of `selectRide` (the empty store for a panic). -/
def storeOf (r : Option (Store × Int × Option String)) : Store :=
  (r.map Prod.fst).getD Store.empty

/-- The call of line 272 on `dummyStore`, the rides enumerated in key order. -/
def nandiniSelect : Option (Store × Int × Option String) :=
  selectRide dummyStore dummyStore.rides.values "Nandini" "Bangalore" "Mysore" 1 "Most Vacant"

/-- The values of Go `int`. -/
def InRange64 (x : Int) : Prop := -(2 : Int) ^ 63 ≤ x ∧ x < (2 : Int) ^ 63

/-- Every ride holds a seat count that is a Go `int`. -/
def SeatsInRange (rides : GoMap Int Ride) : Prop :=
  ∀ e ∈ rides, InRange64 e.2.AvailableSeats

/-! ## Itineraries -/

/-- A ride that the search may use: active, with at least `seats` seats. -/
@[reducible]
def qualifies (seats : Int) (r : Ride) : Prop :=
  r.Active = true ∧ seats ≤ r.AvailableSeats

/-- Consecutive rides connect: each destination is the next origin. -/
def Connected (route : List Ride) : Prop :=
  List.Chain' (fun a b => a.Destination = b.Origin) route

/-- The itineraries the search builds from `cur`: qualifying rides of `rides`, the
first leaving `cur`, each leaving where the previous one arrives, the last one
arriving at `destination` and no earlier one doing so. -/
def RouteFrom (rides : List Ride) (destination : String) (seats : Int) :
    String → List Ride → Prop
  | _, [] => False
  | cur, [r] => r ∈ rides ∧ qualifies seats r ∧ r.Origin = cur ∧ r.Destination = destination
  | cur, r :: r2 :: t =>
    r ∈ rides ∧ qualifies seats r ∧ r.Origin = cur ∧ r.Destination ≠ destination ∧
      RouteFrom rides destination seats r.Destination (r2 :: t)

/-- The legs the search passes through: connected qualifying rides of `rides`
from `cur`, none arriving at `destination`. -/
def Walk (rides : List Ride) (destination : String) (seats : Int) :
    String → List Ride → Prop
  | _, [] => True
  | cur, r :: t =>
    r ∈ rides ∧ qualifies seats r ∧ r.Origin = cur ∧ r.Destination ≠ destination ∧
      Walk rides destination seats r.Destination t

/-- An itinerary from `source` to `destination` in the words of the spec: a
non-empty connected chain of qualifying rides of `rides` that starts at
`source`, ends at `destination`, and in which no ride before the last arrives
at `destination`. -/
def IsItinerary (rides : List Ride) (source destination : String) (seats : Int)
    (route : List Ride) : Prop :=
  route ≠ [] ∧ (∀ r ∈ route, r ∈ rides ∧ qualifies seats r) ∧
    route.head?.map (fun r => r.Origin) = some source ∧
    route.getLast?.map (fun r => r.Destination) = some destination ∧
    Connected route ∧ ∀ r ∈ route.dropLast, r.Destination ≠ destination

/-- A cycle among the qualifying rides: a non-empty connected chain of them whose
last ride arrives where the first one leaves. -/
def IsCycle (rides : List Ride) (seats : Int) (c : List Ride) : Prop :=
  c ≠ [] ∧ (∀ r ∈ c, r ∈ rides ∧ qualifies seats r) ∧ Connected c ∧
    c.getLast?.map (fun r => r.Destination) = c.head?.map (fun r => r.Origin)

/-- The two offers of the end-to-end example: R1 from A to B and R2 from B to C,
one seat each. -/
def twoLegOffers : List Command :=
  [ .addUser "Rohan, M, 36",
    .addVehicle "Rohan, Swift, KA-01-12345",
    .addVehicle "Rohan, Polo, KA-01-44252",
    .offerRide "Rohan, Origin=A, Available Seats=1, Vehicle=Swift, KA-01-12345, Destination=B",
    .offerRide "Rohan, Origin=B, Available Seats=1, Vehicle=Polo, KA-01-44252, Destination=C" ]

/-- The store after `twoLegOffers`. -/
def twoLegStore : Store := (run twoLegOffers).getD Store.empty

/-- The ride R1 of the example. -/
def legR1 : Ride := ⟨0, "Rohan", "A", "B", 1, ⟨"Rohan", "Swift", "KA-01-12345"⟩, true⟩

/-- The ride R2 of the example. -/
def legR2 : Ride := ⟨1, "Rohan", "B", "C", 1, ⟨"Rohan", "Polo", "KA-01-44252"⟩, true⟩

/-- The search of line 278 on `dummyStore`, every loop enumerating in key order. -/
def dummyRoutes : Option (List (List Ride)) :=
  findPossibleRides (fun _ => dummyStore.rides.values) 4 "Mumbai" "Mysore" 1

/-- Where a chain of rides that starts at `cur` ends. -/
def endLoc (cur : String) (w : List Ride) : String :=
  (w.getLast?.map (fun r => r.Destination)).getD cur

/-- A ranking of the three places of the end-to-end example. -/
def legRank (loc : String) : Nat := if loc = "A" then 0 else if loc = "B" then 1 else 2

/-- The offer of the end-to-end example of the spec: one ride Hyderabad ->
Bangalore with 2 seats, and a registered rider. -/
def endToEndOffers : List Command :=
  [ .addUser "Rohan, M, 36",
    .addVehicle "Rohan, Swift, KA-01-12345",
    .addUser "Nandini, F, 29",
    .offerRide "Rohan, Origin=Hyderabad, Available Seats=2, Vehicle=Swift, KA-01-12345, Destination=Bangalore" ]

/-- The store after `endToEndOffers`. -/
def endToEndStore : Store := (run endToEndOffers).getD Store.empty

/-- The ride offered by `endToEndOffers`. -/
def endToEndRide : Ride :=
  ⟨0, "Rohan", "Hyderabad", "Bangalore", 2, ⟨"Rohan", "Swift", "KA-01-12345"⟩, true⟩

/-- The selection of 1 seat on `endToEndStore` under the default strategy. -/
def endToEndSelect : Option (Store × Int × Option String) :=
  selectRide endToEndStore endToEndStore.rides.values "Nandini" "Hyderabad" "Bangalore" 1 ""

/-- A vehicle added for an owner who was never registered with `addUser`. -/
def unregisteredOwnerSetup : List Command :=
  [ .addVehicle "Asha, Polo, KA-09-1111" ]

/-- The store after `unregisteredOwnerSetup`. -/
def unregisteredOwnerStore : Store := (run unregisteredOwnerSetup).getD Store.empty

/-- Every registered user has a statistics record. -/
def StatsForUsers (s : Store) : Prop :=
  ∀ name, s.nameUserMap.get? name ≠ none → s.ownerRideStats.get? name ≠ none

/-- A registered driver with one vehicle and no ride yet. -/
def registeredSetup : List Command :=
  [ .addUser "Rohan, M, 36",
    .addVehicle "Rohan, Swift, KA-01-12345",
    .addUser "Nandini, F, 29" ]

/-- The store after `registeredSetup`. -/
def registeredStore : Store := (run registeredSetup).getD Store.empty

/-- An offer with the largest seat count that `toInt` accepts, and a registered rider. -/
def overflowOffers : List Command :=
  [ .addUser "Rohan, M, 36",
    .addVehicle "Rohan, Swift, KA-01-12345",
    .addUser "Nandini, F, 29",
    .offerRide "Rohan, Origin=Hyderabad, Available Seats=9223372036854775807, Vehicle=Swift, KA-01-12345, Destination=Bangalore" ]

/-- The store after `overflowOffers`. -/
def overflowStore : Store := (run overflowOffers).getD Store.empty

/-- A selection of -1 seats on `overflowStore` under the default strategy. -/
def overflowSelect : Option (Store × Int × Option String) :=
  selectRide overflowStore overflowStore.rides.values "Nandini" "Hyderabad" "Bangalore" (-1) ""

/-- A cycle the search can run into from `source`: after the legs `pre` from
`source`, the non-empty chain `c` of qualifying rides, none arriving at
`destination`, whose last ride arrives where its first one leaves. -/
def ReachableCycle (rides : List Ride) (destination : String) (seats : Int) (source : String)
    (pre c : List Ride) : Prop :=
  c ≠ [] ∧ Walk rides destination seats source (pre ++ c) ∧
    c.getLast?.map (fun r => r.Destination) = c.head?.map (fun r => r.Origin)

/-- Two offers that form a cycle: A -> B and B -> A, one seat each. -/
def cycleOffers : List Command :=
  [ .addUser "Rohan, M, 36",
    .addVehicle "Rohan, Swift, KA-01-12345",
    .addVehicle "Rohan, Polo, KA-01-44252",
    .offerRide "Rohan, Origin=A, Available Seats=1, Vehicle=Swift, KA-01-12345, Destination=B",
    .offerRide "Rohan, Origin=B, Available Seats=1, Vehicle=Polo, KA-01-44252, Destination=A" ]

/-- The store after `cycleOffers`. -/
def cycleStore : Store := (run cycleOffers).getD Store.empty

/-- The ride A -> B of `cycleStore`. -/
def cycleAB : Ride := ⟨0, "Rohan", "A", "B", 1, ⟨"Rohan", "Swift", "KA-01-12345"⟩, true⟩

/-- The ride B -> A of `cycleStore`. -/
def cycleBA : Ride := ⟨1, "Rohan", "B", "A", 1, ⟨"Rohan", "Polo", "KA-01-44252"⟩, true⟩

/-! ## Theorems -/

/-! ## Lemmas on `GoMap` -/

namespace GoMap

variable {κ α : Type} [DecidableEq κ]

theorem get?_set_same (m : GoMap κ α) (k : κ) (v : α) : (m.set k v).get? k = some v := by
  induction m with
  | nil => simp [set, get?]
  | cons e t ih =>
    obtain ⟨k1, v1⟩ := e
    by_cases h : k1 = k
    · simp [set, get?, h]
    · simp [set, get?, h, ih]

theorem get?_set_other (m : GoMap κ α) (k k2 : κ) (v : α) (h : k2 ≠ k) :
    (m.set k v).get? k2 = m.get? k2 := by
  induction m with
  | nil => simp [set, get?, Ne.symm h]
  | cons e t ih =>
    obtain ⟨k1, v1⟩ := e
    by_cases h1 : k1 = k
    · subst h1
      simp [set, get?, Ne.symm h]
    · by_cases h2 : k1 = k2
      · subst h2
        simp [set, get?, h1]
      · simp [set, get?, h1, h2, ih]

theorem mem_of_get? (m : GoMap κ α) (k : κ) (v : α) (h : m.get? k = some v) : (k, v) ∈ m := by
  induction m with
  | nil => simp [get?] at h
  | cons e t ih =>
    obtain ⟨k1, v1⟩ := e
    by_cases h1 : k1 = k
    · simp [get?, h1] at h
      simp [h1, h]
    · simp [get?, h1] at h
      exact List.mem_cons_of_mem _ (ih h)

theorem get?_of_mem (m : GoMap κ α) (hwf : m.WF) (k : κ) (v : α) (h : (k, v) ∈ m) :
    m.get? k = some v := by
  induction m with
  | nil => simp at h
  | cons e t ih =>
    obtain ⟨k1, v1⟩ := e
    have hnd : k1 ∉ keys t ∧ (keys t).Nodup := by
      simpa [WF, keys] using hwf
    rcases List.mem_cons.1 h with h1 | h1
    · cases h1
      simp [get?]
    · have hk : k ∈ keys t := List.mem_map.2 ⟨(k, v), h1, rfl⟩
      have hne : k1 ≠ k := fun e => hnd.1 (e ▸ hk)
      simp only [get?, hne, if_false]
      exact ih hnd.2 h1

theorem get?_eq_none_iff (m : GoMap κ α) (k : κ) : m.get? k = none ↔ k ∉ keys m := by
  induction m with
  | nil => simp [get?, keys]
  | cons e t ih =>
    obtain ⟨k1, v1⟩ := e
    by_cases h1 : k1 = k
    · simp [get?, keys, h1]
    · simp only [get?, h1, if_false, ih]
      simp [keys, Ne.symm h1]

theorem keys_set_of_mem (m : GoMap κ α) (k : κ) (v : α) (h : k ∈ keys m) :
    keys (m.set k v) = keys m := by
  induction m with
  | nil => simp [keys] at h
  | cons e t ih =>
    obtain ⟨k1, v1⟩ := e
    by_cases h1 : k1 = k
    · simp [set, keys, h1]
    · have : k ∈ keys t := by
        simpa [keys, Ne.symm h1] using h
      have ih1 := ih this
      simp only [keys] at ih1
      simp [set, keys, h1, ih1]

theorem set_of_not_mem (m : GoMap κ α) (k : κ) (v : α) (h : k ∉ keys m) :
    m.set k v = m ++ [(k, v)] := by
  induction m with
  | nil => simp [set]
  | cons e t ih =>
    obtain ⟨k1, v1⟩ := e
    have h1 : k1 ≠ k := by
      intro e
      apply h
      simp [keys, e]
    have h2 : k ∉ keys t := by
      intro hk
      apply h
      simp only [keys, List.map_cons, List.mem_cons]
      exact Or.inr hk
    simp [set, h1, ih h2]

end GoMap

/-! ## Lemmas on `selectRide` -/

theorem mostVacantLoop_mem (l : List Ride) (init : Ride × Int) :
    (mostVacantLoop l init).1 = init.1 ∨ (mostVacantLoop l init).1 ∈ l := by
  induction l generalizing init with
  | nil => exact Or.inl rfl
  | cons r t ih =>
    have step : mostVacantLoop (r :: t) init
        = mostVacantLoop t (if r.AvailableSeats > init.2 then (r, r.AvailableSeats) else init) :=
      rfl
    rw [step]
    by_cases hc : r.AvailableSeats > init.2
    · rw [if_pos hc]
      rcases ih (r, r.AvailableSeats) with h | h
      · exact Or.inr (by rw [h]; exact List.mem_cons_self _ _)
      · exact Or.inr (List.mem_cons_of_mem _ h)
    · rw [if_neg hc]
      rcases ih init with h | h
      · exact Or.inl h
      · exact Or.inr (List.mem_cons_of_mem _ h)

theorem chooseRide_mem (l : List Ride) (first sel : Ride) (strategy : String)
    (hfirst : first ∈ l) (h : chooseRide l first strategy = some (some sel)) : sel ∈ l := by
  unfold chooseRide at h
  split at h
  · simp only [Option.some.injEq] at h
    rcases mostVacantLoop_mem l (first, 0) with h1 | h1
    · rw [← h, h1]
      exact hfirst
    · rw [← h]
      exact h1
  · split at h
    · split at h
      · simp at h
      · simp only [Option.some.injEq] at h
        exact List.mem_of_find?_eq_some h
    · simp only [Option.some.injEq] at h
      exact h ▸ hfirst

/-- The shape of a successful call of `selectRide`. -/
theorem selectRide_ok (s : Store) (iter : List Ride) (user source destination : String)
    (seats : Int) (strategy : String) (s1 : Store) (id : Int)
    (h : selectRide s iter user source destination seats strategy = some (s1, id, none)) :
    ∃ first rest sel stats1,
      iter.filter (matchesRequest source destination seats) = first :: rest ∧
      chooseRide (first :: rest) first strategy = some (some sel) ∧
      updateTaken s.ownerRideStats user = some stats1 ∧
      s1 = { s with rides := decrementSeats s.rides sel seats, ownerRideStats := stats1 } ∧
      id = sel.ID := by
  unfold selectRide at h
  simp only at h
  split at h
  · simp at h
  · rename_i first rest hf
    split at h
    · simp at h
    · simp at h
    · rename_i sel hc
      split at h
      · simp at h
      · rename_i stats1 hu
        simp only [Option.some.injEq, Prod.mk.injEq, and_true] at h
        exact ⟨first, rest, sel, stats1, hf, by rw [← hf]; exact hc, hu, h.1.symm, h.2.symm⟩

theorem matchesRequest_iff (source destination : String) (seats : Int) (r : Ride) :
    matchesRequest source destination seats r = true ↔
      r.Origin = source ∧ r.Destination = destination ∧ r.AvailableSeats ≥ seats ∧
        r.Active = true := by
  simp [matchesRequest, and_assoc]

/-- Claim C4: whenever `selectRide` succeeds, under any strategy string, the id it
returns is the id of a ride of the store before the call that was active, had
origin equal to the source, destination equal to the requested destination and
at least the requested number of available seats. -/
theorem selectRide_returns_filtered_ride (s : Store) (iter : List Ride)
    (user source destination : String) (seats : Int) (strategy : String) (s1 : Store) (id : Int)
    (hiter : iter.Perm s.rides.values)
    (h : selectRide s iter user source destination seats strategy = some (s1, id, none)) :
    ∃ r ∈ s.rides.values, r.ID = id ∧ r.Active = true ∧ r.Origin = source ∧
      r.Destination = destination ∧ r.AvailableSeats ≥ seats := by
  obtain ⟨first, rest, sel, stats1, hf, hc, -, -, hid⟩ :=
    selectRide_ok s iter user source destination seats strategy s1 id h
  have hsel : sel ∈ iter.filter (matchesRequest source destination seats) := by
    rw [hf]
    exact chooseRide_mem _ first sel strategy (List.mem_cons_self _ _) hc
  obtain ⟨hmem, hm⟩ := List.mem_filter.1 hsel
  obtain ⟨ho, hd, hs, ha⟩ := (matchesRequest_iff source destination seats sel).1 hm
  exact ⟨sel, hiter.mem_iff.1 hmem, hid.symm, ha, ho, hd, hs⟩

namespace GoMap

variable {κ α : Type} [DecidableEq κ]

theorem mem_set (m : GoMap κ α) (k : κ) (v : α) (e : κ × α) (h : e ∈ m.set k v) :
    e = (k, v) ∨ e ∈ m := by
  induction m with
  | nil =>
    simp only [set, List.mem_singleton] at h
    exact Or.inl h
  | cons e1 t ih =>
    obtain ⟨k1, v1⟩ := e1
    by_cases h1 : k1 = k
    · simp only [set, h1, if_true, List.mem_cons] at h
      rcases h with h | h
      · exact Or.inl h
      · exact Or.inr (List.mem_cons_of_mem _ h)
    · simp only [set, h1, if_false, List.mem_cons] at h
      rcases h with h | h
      · exact Or.inr (h ▸ List.mem_cons_self _ _)
      · rcases ih h with h2 | h2
        · exact Or.inl h2
        · exact Or.inr (List.mem_cons_of_mem _ h2)

theorem mem_set_self (m : GoMap κ α) (k : κ) (v : α) : (k, v) ∈ m.set k v :=
  mem_of_get? _ _ _ (get?_set_same m k v)

theorem mem_set_of_ne (m : GoMap κ α) (k : κ) (v : α) (e : κ × α) (h : e ∈ m)
    (hne : e.1 ≠ k) : e ∈ m.set k v := by
  induction m with
  | nil => simp at h
  | cons e1 t ih =>
    obtain ⟨k1, v1⟩ := e1
    by_cases h1 : k1 = k
    · simp only [set, h1, if_true]
      rcases List.mem_cons.1 h with h2 | h2
      · exact absurd (by rw [h2]; exact h1) hne
      · exact List.mem_cons_of_mem _ h2
    · simp only [set, h1, if_false]
      rcases List.mem_cons.1 h with h2 | h2
      · exact h2 ▸ List.mem_cons_self _ _
      · exact List.mem_cons_of_mem _ (ih h2)

omit [DecidableEq κ] in
theorem length_keys (m : GoMap κ α) : (keys m).length = m.length := by
  simp [keys]

theorem length_set_of_mem (m : GoMap κ α) (k : κ) (v : α) (h : k ∈ keys m) :
    (m.set k v).length = m.length := by
  rw [← length_keys, keys_set_of_mem m k v h, length_keys]

theorem mem_keys_of_get? (m : GoMap κ α) (k : κ) (v : α) (h : m.get? k = some v) :
    k ∈ keys m :=
  List.mem_map.2 ⟨(k, v), mem_of_get? m k v h, rfl⟩

omit [DecidableEq κ] in
theorem mem_keys_of_mem (m : GoMap κ α) (e : κ × α) (h : e ∈ m) : e.1 ∈ keys m :=
  List.mem_map.2 ⟨e, h, rfl⟩

end GoMap

/-! ## The ride ids of reachable stores -/

theorem DenseIds.wf {m : GoMap Int Ride} (h : DenseIds m) : m.WF := by
  unfold GoMap.WF
  rw [h.1]
  exact (List.nodup_range _).map (fun a b hab => by simpa using hab)

theorem DenseIds.mem_keys_iff {m : GoMap Int Ride} (h : DenseIds m) (k : Int) :
    k ∈ m.keys ↔ 0 ≤ k ∧ k < m.length := by
  rw [h.1]
  simp only [List.mem_map, List.mem_range]
  constructor
  · rintro ⟨n, hn, rfl⟩
    exact ⟨Int.ofNat_nonneg n, by exact_mod_cast hn⟩
  · rintro ⟨h0, h1⟩
    refine ⟨k.toNat, ?_, ?_⟩
    · omega
    · simp [Int.toNat_of_nonneg h0]

theorem DenseIds.dense_set_existing {m : GoMap Int Ride} (h : DenseIds m) (k : Int) (v : Ride)
    (hk : k ∈ m.keys) (hv : v.ID = k) : DenseIds (m.set k v) := by
  refine ⟨?_, ?_⟩
  · rw [GoMap.keys_set_of_mem m k v hk, GoMap.length_set_of_mem m k v hk]
    exact h.1
  · intro e he
    rcases GoMap.mem_set m k v e he with h1 | h1
    · rw [h1]
      exact hv
    · exact h.2 e h1

theorem DenseIds.dense_set_new {m : GoMap Int Ride} (h : DenseIds m) (v : Ride)
    (hv : v.ID = m.len) : DenseIds (m.set m.len v) := by
  have hnot : m.len ∉ m.keys := by
    intro hk
    have := (h.mem_keys_iff _).1 hk
    simp [GoMap.len] at this
  rw [GoMap.set_of_not_mem m _ v hnot]
  refine ⟨?_, ?_⟩
  · simp only [GoMap.keys, List.map_append, List.length_append, List.length_singleton,
      List.map_cons, List.map_nil, List.range_succ]
    have h1 := h.1
    simp only [GoMap.keys] at h1
    rw [h1]
    simp [GoMap.len]
  · intro e he
    rcases List.mem_append.1 he with h1 | h1
    · exact h.2 e h1
    · simp only [List.mem_singleton] at h1
      rw [h1]
      exact hv

/-! ## How each command changes `rides` -/

theorem addUser_rides (s : Store) (userDetail : String) :
    (addUser s userDetail).1.rides = s.rides := by
  unfold addUser
  split <;> rfl

theorem addVehicle_rides (s : Store) (vehicleDetail : String) :
    (addVehicle s vehicleDetail).1.rides = s.rides := by
  unfold addVehicle
  split <;> rfl

/-- The outcomes of `offerRideFields`. -/
theorem offerRideFields_cases (s : Store) (driver origin : String) (availableSeats : Int)
    (vehicleModel numberPlate destination : String) (s1 : Store) (msg : String)
    (h : offerRideFields s driver origin availableSeats vehicleModel numberPlate destination
      = some (s1, msg)) :
    s1 = s ∨ ∃ v stats1, findVehicle s driver vehicleModel numberPlate = some v ∧
      vehicleActive s.rides v = false ∧ incOffered s.ownerRideStats driver = some stats1 ∧
      s1 = { s with
        rides := s.rides.set s.rides.len
          { ID := s.rides.len, Driver := driver, Origin := origin, Destination := destination,
            AvailableSeats := availableSeats, Vehicle := v, Active := true },
        ownerRideStats := stats1 } := by
  unfold offerRideFields at h
  split at h
  · simp only [Option.some.injEq, Prod.mk.injEq] at h
    exact Or.inl h.1.symm
  · rename_i v hv
    split at h
    · simp only [Option.some.injEq, Prod.mk.injEq] at h
      exact Or.inl h.1.symm
    · rename_i hact
      simp only at h
      split at h
      · simp at h
      · rename_i stats1 hst
        simp only [Option.some.injEq, Prod.mk.injEq] at h
        exact Or.inr ⟨v, stats1, hv, by simpa using hact, hst, h.1.symm⟩

/-- The function `offerRide` either leaves the store alone or runs `offerRideFields`
on the parsed fields. -/
theorem offerRide_cases (s : Store) (rideDetail : String) (s1 : Store) (msg : String)
    (h : offerRide s rideDetail = some (s1, msg)) :
    s1 = s ∨ ∃ driver origin seatsField vehicleModel numberPlate destination,
      offerRideFields s driver origin (toInt seatsField) vehicleModel numberPlate destination
        = some (s1, msg) := by
  unfold offerRide at h
  split at h
  · split at h
    · exact Or.inr ⟨_, _, _, _, _, _, h⟩
    · simp at h
  · simp only [Option.some.injEq, Prod.mk.injEq] at h
    exact Or.inl h.1.symm

theorem wrap64_inRange (x : Int) : InRange64 (wrap64 x) := by
  unfold InRange64 wrap64
  constructor <;> omega

theorem wrap64_of_inRange (x : Int) (h : InRange64 x) : wrap64 x = x := by
  unfold InRange64 at h
  unfold wrap64
  omega

theorem toInt_inRange (input : String) : InRange64 (toInt input) := by
  have h0 : InRange64 0 := by
    unfold InRange64
    constructor <;> norm_num
  unfold toInt
  split
  · exact h0
  · simp only
    split_ifs <;> first | exact h0 | assumption

theorem SeatsInRange.range_set {m : GoMap Int Ride} (h : SeatsInRange m) (k : Int) (v : Ride)
    (hv : InRange64 v.AvailableSeats) : SeatsInRange (m.set k v) := by
  intro e he
  rcases GoMap.mem_set m k v e he with h1 | h1
  · rw [h1]
    exact hv
  · exact h e h1

/-- Under dense ids, `decrementSeats` rewrites the entry of the selected ride. -/
theorem decrementSeats_cases (m : GoMap Int Ride) (hm : DenseIds m) (sel : Ride) (seats : Int) :
    decrementSeats m sel seats = m ∨ ∃ ride, (sel.ID, ride) ∈ m ∧ ride.ID = sel.ID ∧
      decrementSeats m sel seats
        = m.set sel.ID { ride with AvailableSeats := subInt ride.AvailableSeats seats } := by
  unfold decrementSeats
  split
  · rename_i ride hg
    have hmem := GoMap.mem_of_get? m _ _ hg
    have hid : ride.ID = sel.ID := hm.2 _ hmem
    refine Or.inr ⟨ride, hmem, hid, ?_⟩
    simp only [hid]
  · exact Or.inl rfl

/-- Under dense ids, `endRide` rewrites the entry stored under `rideID`. -/
theorem endRide_cases (s : Store) (hm : DenseIds s.rides) (rideID : Int) :
    (endRide s rideID).1 = s ∨ ∃ ride, (rideID, ride) ∈ s.rides ∧ ride.ID = rideID ∧
      (endRide s rideID).1 = { s with rides := s.rides.set rideID { ride with Active := false } } := by
  unfold endRide
  split
  · exact Or.inl rfl
  · rename_i hr
    have hk : rideID ∈ s.rides.keys := by
      rw [hm.mem_keys_iff]
      simp only [GoMap.len] at hr
      omega
    cases hg : s.rides.get? rideID with
    | none => exact absurd hk ((GoMap.get?_eq_none_iff _ _).1 hg)
    | some ride =>
      have hmem := GoMap.mem_of_get? _ _ _ hg
      have hid : ride.ID = rideID := hm.2 _ hmem
      refine Or.inr ⟨ride, hmem, hid, ?_⟩
      simp only [Option.getD_some, hid]

theorem OneActivePerVehicle.active_set_existing {m : GoMap Int Ride} (h : OneActivePerVehicle m)
    (k : Int) (old v : Ride) (hold : (k, old) ∈ m) (hveh : v.Vehicle = old.Vehicle)
    (hact : v.Active = true → old.Active = true) : OneActivePerVehicle (m.set k v) := by
  have key : ∀ e ∈ m.set k v, ∃ e0 ∈ m, e0.1 = e.1 ∧ e0.2.Vehicle = e.2.Vehicle ∧
      (e.2.Active = true → e0.2.Active = true) := by
    intro e he
    rcases GoMap.mem_set m k v e he with h1 | h1
    · exact ⟨(k, old), hold, by rw [h1], by rw [h1]; exact hveh.symm, by rw [h1]; exact hact⟩
    · exact ⟨e, h1, rfl, rfl, id⟩
  intro e1 he1 e2 he2 hne ha1 ha2
  obtain ⟨a, ha, hak, hav, haa⟩ := key e1 he1
  obtain ⟨b, hb, hbk, hbv, hba⟩ := key e2 he2
  rw [← hav, ← hbv]
  exact h a ha b hb (by rw [hak, hbk]; exact hne) (haa ha1) (hba ha2)

theorem vehicleActive_eq_false (m : GoMap Int Ride) (v : Vehicle)
    (h : vehicleActive m v = false) : ∀ e ∈ m, e.2.Active = true → e.2.Vehicle ≠ v := by
  intro e he ha hv
  have : vehicleActive m v = true := by
    unfold vehicleActive
    rw [List.any_eq_true]
    exact ⟨e.2, List.mem_map.2 ⟨e, he, rfl⟩, by simp [hv, ha]⟩
  rw [h] at this
  exact Bool.noConfusion this

theorem OneActivePerVehicle.active_set_new {m : GoMap Int Ride} (h : OneActivePerVehicle m)
    (hm : DenseIds m) (v : Ride) (hv : vehicleActive m v.Vehicle = false) :
    OneActivePerVehicle (m.set m.len v) := by
  have hnot : m.len ∉ m.keys := by
    intro hk
    have := (hm.mem_keys_iff _).1 hk
    simp [GoMap.len] at this
  rw [GoMap.set_of_not_mem m _ v hnot]
  have hfree := vehicleActive_eq_false m v.Vehicle hv
  intro e1 he1 e2 he2 hne ha1 ha2
  rcases List.mem_append.1 he1 with h1 | h1
  · rcases List.mem_append.1 he2 with h2 | h2
    · exact h e1 h1 e2 h2 hne ha1 ha2
    · simp only [List.mem_singleton] at h2
      rw [h2]
      exact hfree e1 h1 ha1
  · simp only [List.mem_singleton] at h1
    rcases List.mem_append.1 he2 with h2 | h2
    · rw [h1]
      exact fun e => hfree e2 h2 ha2 e.symm
    · simp only [List.mem_singleton] at h2
      rw [h1, h2] at hne
      exact absurd rfl hne

/-- Every reachable store has dense ride ids, at most one active ride per vehicle
and seat counts in the range of `int`. -/
theorem Reachable.inv {s : Store} (h : Reachable s) :
    DenseIds s.rides ∧ OneActivePerVehicle s.rides ∧ SeatsInRange s.rides := by
  induction h with
  | empty =>
    refine ⟨⟨rfl, ?_⟩, ?_, ?_⟩
    · intro e he
      simp [Store.empty] at he
    · intro e he
      simp [Store.empty] at he
    · intro e he
      simp [Store.empty] at he
  | addUser s d _ ih =>
    rw [addUser_rides]
    exact ih
  | addVehicle s d _ ih =>
    rw [addVehicle_rides]
    exact ih
  | offerRide s d s1 msg _ hoff ih =>
    rcases offerRide_cases s d s1 msg hoff with h1 | ⟨driver, origin, seats, model, plate, dest, h1⟩
    · rw [h1]
      exact ih
    · rcases offerRideFields_cases s driver origin (toInt seats) model plate dest s1 msg h1 with
        h2 | ⟨v, stats1, -, hact, -, h2⟩
      · rw [h2]
        exact ih
      · rw [h2]
        exact ⟨ih.1.dense_set_new _ rfl, ih.2.1.active_set_new ih.1 _ hact,
          ih.2.2.range_set _ _ (toInt_inRange seats)⟩
  | selectRide s iter user source destination seats strategy s1 id err _ _ hsel ih =>
    cases err with
    | some e =>
      have : s1 = s := by
        unfold RideSharing.selectRide at hsel
        simp only at hsel
        split at hsel
        · simp only [Option.some.injEq, Prod.mk.injEq] at hsel
          exact hsel.1.symm
        · split at hsel
          · simp at hsel
          · simp only [Option.some.injEq, Prod.mk.injEq] at hsel
            exact hsel.1.symm
          · split at hsel
            · simp at hsel
            · simp at hsel
      rw [this]
      exact ih
    | none =>
      obtain ⟨first, rest, sel, stats1, -, -, -, hs1, -⟩ :=
        selectRide_ok s iter user source destination seats strategy s1 id hsel
      rw [hs1]
      rcases decrementSeats_cases s.rides ih.1 sel seats with h1 | ⟨ride, hmem, hid, h1⟩
      · simp only [h1]
        exact ih
      · simp only [h1]
        exact ⟨ih.1.dense_set_existing _ _ (GoMap.mem_keys_of_mem _ _ hmem) hid,
          ih.2.1.active_set_existing _ ride _ hmem rfl (fun h => h),
          ih.2.2.range_set _ _ (wrap64_inRange _)⟩
  | endRide s rideID _ ih =>
    rcases endRide_cases s ih.1 rideID with h1 | ⟨ride, hmem, hid, h1⟩
    · rw [h1]
      exact ih
    · rw [h1]
      exact ⟨ih.1.dense_set_existing _ _ (GoMap.mem_keys_of_mem _ _ hmem) hid,
        ih.2.1.active_set_existing _ ride _ hmem rfl (fun h => Bool.noConfusion h),
        ih.2.2.range_set _ _ (ih.2.2 _ hmem)⟩

/-! ## Command sequences reach reachable stores -/

theorem exec_reachable (s s1 : Store) (c : Command) (hs : Reachable s)
    (h : exec s c = some s1) : Reachable s1 := by
  cases c with
  | addUser d =>
    simp only [exec, Option.some.injEq] at h
    exact h ▸ Reachable.addUser s d hs
  | addVehicle d =>
    simp only [exec, Option.some.injEq] at h
    exact h ▸ Reachable.addVehicle s d hs
  | offerRide d =>
    simp only [exec, Option.map_eq_some'] at h
    obtain ⟨⟨s2, msg⟩, h1, h2⟩ := h
    simp only at h2
    exact h2 ▸ Reachable.offerRide s d s2 msg hs h1
  | selectRide iter user source destination seats strategy =>
    simp only [exec] at h
    split at h
    · rename_i hp
      simp only [Option.map_eq_some'] at h
      obtain ⟨⟨s2, id, err⟩, h1, h2⟩ := h
      simp only at h2
      exact h2 ▸ Reachable.selectRide s iter user source destination seats strategy s2 id err
        hs hp h1
    · simp at h
  | endRide id =>
    simp only [exec, Option.some.injEq] at h
    exact h ▸ Reachable.endRide s id hs

theorem foldlM_exec_reachable (cmds : List Command) (s s1 : Store) (hs : Reachable s)
    (h : cmds.foldlM exec s = some s1) : Reachable s1 := by
  induction cmds generalizing s with
  | nil =>
    simp only [List.foldlM_nil, Option.pure_def, Option.some.injEq] at h
    exact h ▸ hs
  | cons c t ih =>
    simp only [List.foldlM_cons, Option.bind_eq_bind, Option.bind_eq_some] at h
    obtain ⟨s2, h1, h2⟩ := h
    exact ih s2 (exec_reachable s s2 c hs h1) h2

theorem run_reachable (cmds : List Command) (s : Store) (h : run cmds = some s) :
    Reachable s :=
  foldlM_exec_reachable cmds Store.empty s Reachable.empty h

theorem dummyStore_reachable : Reachable dummyStore :=
  run_reachable dummyOffers dummyStore (by decide)

theorem negSeatStore_reachable : Reachable negSeatStore :=
  run_reachable negSeatOffers negSeatStore (by decide)

/-! ## Claims C1, C3, C4, C5 -/

/-- Claim C1, the code at a failing input: in a reachable store with two active
rides Bangalore -> Mysore holding -2 seats (id 0) and -1 seats (id 1), a request
for -2 seats under "Most Vacant" that enumerates ride 0 first succeeds and
returns id 0, although the filtered candidate with id 1 has more seats. -/
theorem mostVacant_negative_seats_returns_non_maximal :
    Reachable negSeatStore ∧
    (negSeatStore.rides.get? 0).map
        (fun r => (matchesRequest "Bangalore" "Mysore" (-2) r, r.AvailableSeats))
      = some (true, -2) ∧
    (negSeatStore.rides.get? 1).map
        (fun r => (matchesRequest "Bangalore" "Mysore" (-2) r, r.AvailableSeats))
      = some (true, -1) ∧
    negSeatStore.ownerRideStats.get? "Nandini" = some { offered := 0, taken := 0 } ∧
    (selectRide negSeatStore negSeatStore.rides.values "Nandini" "Bangalore" "Mysore" (-2)
        "Most Vacant").map Prod.snd = some (0, none) :=
  ⟨negSeatStore_reachable, by decide, by decide, by decide, by decide⟩

/-- Claim C3: in every store reachable from the empty store by `addUser`,
`addVehicle`, `offerRide`, `selectRide` and `endRide`, two rides stored under
different ids that are both active never carry equal vehicles. -/
theorem reachable_one_active_ride_per_vehicle (s : Store) (h : Reachable s) (k1 k2 : Int)
    (r1 r2 : Ride) (h1 : s.rides.get? k1 = some r1) (h2 : s.rides.get? k2 = some r2)
    (hne : k1 ≠ k2) (ha1 : r1.Active = true) (ha2 : r2.Active = true) :
    r1.Vehicle ≠ r2.Vehicle :=
  h.inv.2.1 (k1, r1) (GoMap.mem_of_get? _ _ _ h1) (k2, r2) (GoMap.mem_of_get? _ _ _ h2) hne
    ha1 ha2

theorem reachable_one_active_ride_per_vehicle_witness :
    Reachable dummyStore ∧
    dummyStore.rides.get? 0 = some ⟨0, "Rohan", "Hyderabad", "Bangalore", 1,
      ⟨"Rohan", "Swift", "KA-01-12345"⟩, true⟩ ∧
    dummyStore.rides.get? 5 = some ⟨5, "Rohan", "Mumbai", "Pune", 1,
      ⟨"Rohan", "Polo", "KA-01-44252"⟩, true⟩ ∧
    (⟨"Rohan", "Swift", "KA-01-12345"⟩ : Vehicle) ≠ ⟨"Rohan", "Polo", "KA-01-44252"⟩ :=
  ⟨dummyStore_reachable, by decide, by decide,
    reachable_one_active_ride_per_vehicle dummyStore dummyStore_reachable 0 5
      ⟨0, "Rohan", "Hyderabad", "Bangalore", 1, ⟨"Rohan", "Swift", "KA-01-12345"⟩, true⟩
      ⟨5, "Rohan", "Mumbai", "Pune", 1, ⟨"Rohan", "Polo", "KA-01-44252"⟩, true⟩
      (by decide) (by decide) (by decide) rfl rfl⟩

theorem selectRide_returns_filtered_ride_witness :
    dummyStore.rides.values.Perm dummyStore.rides.values ∧
    selectRide dummyStore dummyStore.rides.values "Nandini" "Bangalore" "Mysore" 1 "Most Vacant"
      = some (storeOf nandiniSelect, 2, none) ∧
    ∃ r ∈ dummyStore.rides.values, r.ID = 2 ∧ r.Active = true ∧ r.Origin = "Bangalore" ∧
      r.Destination = "Mysore" ∧ r.AvailableSeats ≥ 1 :=
  ⟨List.Perm.refl _, by decide,
    selectRide_returns_filtered_ride dummyStore dummyStore.rides.values "Nandini" "Bangalore"
      "Mysore" 1 "Most Vacant" (storeOf nandiniSelect) 2 (List.Perm.refl _) (by decide)⟩

/-- Claim C5, the code at a failing input: after the offers of `addDummyData`
Rohan holds offered = 2, taken = 0; the successful selection of line 287 leaves
him with offered = 0, taken = 1 instead of offered = 2, taken = 1. -/
theorem selectRide_resets_rider_counters :
    dummyStore.ownerRideStats.get? "Rohan" = some { offered := 2, taken := 0 } ∧
    (selectRide dummyStore dummyStore.rides.values "Rohan" "Hyderabad" "Bangalore" 1
        "Preferred Vehicle=Baleno").map
        (fun r => (r.2, r.1.ownerRideStats.get? "Rohan"))
      = some ((3, none), some { offered := 0, taken := 1 }) :=
  ⟨by decide, by decide⟩

/-! ## Claim C6: the frame of a successful selection -/

/-- In a store with dense ids a successful `selectRide` rewrites exactly the entry
of the ride it returns. -/
theorem selectRide_ok_dense (s : Store) (hd : DenseIds s.rides) (iter : List Ride)
    (user source destination : String) (seats : Int) (strategy : String) (s1 : Store) (id : Int)
    (hiter : iter.Perm s.rides.values)
    (h : selectRide s iter user source destination seats strategy = some (s1, id, none)) :
    ∃ sel stats1, s.rides.get? id = some sel ∧ sel.ID = id ∧
      matchesRequest source destination seats sel = true ∧
      updateTaken s.ownerRideStats user = some stats1 ∧
      s1 = { s with
        rides := s.rides.set id { sel with AvailableSeats := subInt sel.AvailableSeats seats },
        ownerRideStats := stats1 } := by
  obtain ⟨first, rest, sel, stats1, hf, hc, hu, hs1, hid⟩ :=
    selectRide_ok s iter user source destination seats strategy s1 id h
  have hsel : sel ∈ iter.filter (matchesRequest source destination seats) := by
    rw [hf]
    exact chooseRide_mem _ first sel strategy (List.mem_cons_self _ _) hc
  obtain ⟨hmem, hm⟩ := List.mem_filter.1 hsel
  have hval : sel ∈ s.rides.values := hiter.mem_iff.1 hmem
  obtain ⟨e, he, hes⟩ := List.mem_map.1 hval
  have hkey : e.1 = sel.ID := by
    rw [← hd.2 e he, hes]
  have hget : s.rides.get? sel.ID = some sel := by
    apply GoMap.get?_of_mem _ hd.wf
    rw [← hkey, ← hes]
    exact he
  refine ⟨sel, stats1, hid ▸ hget, hid.symm, hm, hu, ?_⟩
  rw [hs1, hid]
  simp only [decrementSeats, hget]

theorem subInt_of_lt (a b : Int) (hab : a ≥ b) (hlt : a - b < 2 ^ 63) :
    subInt a b = a - b := by
  unfold subInt
  apply wrap64_of_inRange
  unfold InRange64 at *
  constructor <;> omega

theorem subInt_twice_ne (a b : Int) (hb : InRange64 b) (hb0 : b ≠ 0) :
    subInt (subInt a b) b ≠ subInt a b := by
  unfold subInt wrap64
  unfold InRange64 at hb
  omega

/-- Claim C6 as stated fails where the subtraction overflows: on the reachable
`overflowStore` ride 0 holds A = 2^63 - 1 seats, the request for S = -1 seats
succeeds and returns id 0, and afterwards the ride holds -2^63 seats, which is
not A - S = 2^63.  So it is not true that every successful selection in a
reachable store leaves exactly A - S. -/
theorem selectRide_overflow_not_exact_difference :
    Reachable overflowStore ∧
    (overflowStore.rides.get? 0).map (fun r => r.AvailableSeats) = some 9223372036854775807 ∧
    overflowSelect.map (fun res => (res.2, (res.1.rides.get? 0).map (fun r => r.AvailableSeats)))
      = some ((0, none), some (-9223372036854775808)) ∧
    (-9223372036854775808 : Int) ≠ 9223372036854775807 - (-1) ∧
    ¬ ∀ (s : Store) (iter : List Ride) (user source destination : String) (seats : Int)
        (strategy : String) (s1 : Store) (id : Int) (r : Ride),
      Reachable s → iter.Perm s.rides.values →
      selectRide s iter user source destination seats strategy = some (s1, id, none) →
      s.rides.get? id = some r →
      s1.rides.get? id = some { r with AvailableSeats := r.AvailableSeats - seats } := by
  have hreach : Reachable overflowStore := run_reachable overflowOffers overflowStore (by decide)
  refine ⟨hreach, by decide, by decide, by decide, ?_⟩
  intro hall
  have h := hall overflowStore overflowStore.rides.values "Nandini" "Hyderabad" "Bangalore" (-1)
    "" (storeOf overflowSelect) 0
    ⟨0, "Rohan", "Hyderabad", "Bangalore", 9223372036854775807,
      ⟨"Rohan", "Swift", "KA-01-12345"⟩, true⟩
    hreach (List.Perm.refl _) (by decide) (by decide)
  revert h
  decide

/-- Claim C6, amended: in every reachable store, a successful `selectRide` for
`seats` seats that returns `id` found under `id` a ride `r` matching the request,
and afterwards `id` holds `r` with only `AvailableSeats` changed, to
`r.AvailableSeats - seats` in Go's `int` arithmetic (`subInt`), which is the
exact difference whenever that is below 2^63, in particular for every
non-negative request; every other key holds what it held, and the keys and the
number of rides are unchanged.  A second successful identical call that returns
`id` decrements once more, so for a non-zero `int` request the two stores
differ. -/
theorem selectRide_decrements_selected_ride (s : Store) (hs : Reachable s) (iter : List Ride)
    (user source destination : String) (seats : Int) (strategy : String) (s1 : Store) (id : Int)
    (hiter : iter.Perm s.rides.values)
    (h : selectRide s iter user source destination seats strategy = some (s1, id, none)) :
    ∃ r, s.rides.get? id = some r ∧ r.ID = id ∧ r.AvailableSeats ≥ seats ∧
      s1.rides.get? id = some { r with AvailableSeats := subInt r.AvailableSeats seats } ∧
      (r.AvailableSeats - seats < 2 ^ 63 →
        subInt r.AvailableSeats seats = r.AvailableSeats - seats) ∧
      (0 ≤ seats → subInt r.AvailableSeats seats = r.AvailableSeats - seats) ∧
      (∀ k, k ≠ id → s1.rides.get? k = s.rides.get? k) ∧
      s1.rides.keys = s.rides.keys ∧ s1.rides.len = s.rides.len ∧
      ∀ iter2 s2, iter2.Perm s1.rides.values →
        selectRide s1 iter2 user source destination seats strategy = some (s2, id, none) →
        s2.rides.get? id = some
          { r with AvailableSeats := subInt (subInt r.AvailableSeats seats) seats } ∧
        (InRange64 seats → seats ≠ 0 → s2.rides.get? id ≠ s1.rides.get? id) := by
  obtain ⟨r, stats1, hget, hid, hm, -, hs1⟩ :=
    selectRide_ok_dense s hs.inv.1 iter user source destination seats strategy s1 id hiter h
  obtain ⟨-, -, hge, -⟩ := (matchesRequest_iff source destination seats r).1 hm
  have hr : InRange64 r.AvailableSeats := hs.inv.2.2 (id, r) (GoMap.mem_of_get? _ _ _ hget)
  have hk : id ∈ s.rides.keys := GoMap.mem_keys_of_get? _ _ _ hget
  have hs1r : s1.rides
      = s.rides.set id { r with AvailableSeats := subInt r.AvailableSeats seats } := by
    rw [hs1]
  have hget1 : s1.rides.get? id
      = some { r with AvailableSeats := subInt r.AvailableSeats seats } := by
    rw [hs1r]
    exact GoMap.get?_set_same _ _ _
  refine ⟨r, hget, hid, hge, hget1, ?_, ?_, ?_, ?_, ?_, ?_⟩
  · exact subInt_of_lt _ _ hge
  · intro h0
    apply subInt_of_lt _ _ hge
    unfold InRange64 at hr
    omega
  · intro k hne
    rw [hs1r]
    exact GoMap.get?_set_other _ _ _ _ hne
  · rw [hs1r]
    exact GoMap.keys_set_of_mem _ _ _ hk
  · rw [hs1r]
    simp only [GoMap.len, GoMap.length_set_of_mem _ _ _ hk]
  · intro iter2 s2 hiter2 h2
    have hs1reach : Reachable s1 :=
      Reachable.selectRide s iter user source destination seats strategy s1 id none hs hiter h
    obtain ⟨r2, stats2, hget2, -, -, -, hs2⟩ :=
      selectRide_ok_dense s1 hs1reach.inv.1 iter2 user source destination seats strategy s2 id
        hiter2 h2
    rw [hget1] at hget2
    simp only [Option.some.injEq] at hget2
    have hget3 : s2.rides.get? id = some
        { r with AvailableSeats := subInt (subInt r.AvailableSeats seats) seats } := by
      rw [hs2, ← hget2]
      exact GoMap.get?_set_same _ _ _
    refine ⟨hget3, ?_⟩
    intro hin hne heq
    rw [hget3, hget1] at heq
    simp only [Option.some.injEq, Ride.mk.injEq, true_and, and_true] at heq
    exact subInt_twice_ne _ _ hin hne heq

theorem selectRide_decrements_selected_ride_witness :
    Reachable dummyStore ∧ dummyStore.rides.values.Perm dummyStore.rides.values ∧
    selectRide dummyStore dummyStore.rides.values "Nandini" "Bangalore" "Mysore" 1 "Most Vacant"
      = some (storeOf nandiniSelect, 2, none) ∧
    ∃ r, dummyStore.rides.get? 2 = some r ∧ r.ID = 2 ∧ r.AvailableSeats ≥ 1 ∧
      (storeOf nandiniSelect).rides.get? 2
        = some { r with AvailableSeats := subInt r.AvailableSeats 1 } ∧
      (r.AvailableSeats - 1 < 2 ^ 63 → subInt r.AvailableSeats 1 = r.AvailableSeats - 1) ∧
      ((0 : Int) ≤ 1 → subInt r.AvailableSeats 1 = r.AvailableSeats - 1) ∧
      (∀ k, k ≠ 2 → (storeOf nandiniSelect).rides.get? k = dummyStore.rides.get? k) ∧
      (storeOf nandiniSelect).rides.keys = dummyStore.rides.keys ∧
      (storeOf nandiniSelect).rides.len = dummyStore.rides.len ∧
      ∀ iter2 s2, iter2.Perm (storeOf nandiniSelect).rides.values →
        selectRide (storeOf nandiniSelect) iter2 "Nandini" "Bangalore" "Mysore" 1 "Most Vacant"
          = some (s2, 2, none) →
        s2.rides.get? 2 = some
          { r with AvailableSeats := subInt (subInt r.AvailableSeats 1) 1 } ∧
        (InRange64 1 → (1 : Int) ≠ 0 → s2.rides.get? 2 ≠ (storeOf nandiniSelect).rides.get? 2) :=
  ⟨dummyStore_reachable, List.Perm.refl _, by decide,
    selectRide_decrements_selected_ride dummyStore dummyStore_reachable dummyStore.rides.values
      "Nandini" "Bangalore" "Mysore" 1 "Most Vacant" (storeOf nandiniSelect) 2 (List.Perm.refl _)
      (by decide)⟩

/-! ## Claim C9: the no-rides-found exit -/

namespace GoMap

variable {κ α : Type} [DecidableEq κ]

theorem mem_set_wf (m : GoMap κ α) (hwf : m.WF) (k : κ) (v : α) (e : κ × α)
    (h : e ∈ m.set k v) : e = (k, v) ∨ (e ∈ m ∧ e.1 ≠ k) := by
  induction m with
  | nil =>
    simp only [set, List.mem_singleton] at h
    exact Or.inl h
  | cons e1 t ih =>
    obtain ⟨k1, v1⟩ := e1
    have hnd : k1 ∉ keys t ∧ (keys t).Nodup := by
      simpa [WF, keys] using hwf
    by_cases h1 : k1 = k
    · simp only [set, h1, if_true, List.mem_cons] at h
      rcases h with h | h
      · exact Or.inl h
      · refine Or.inr ⟨List.mem_cons_of_mem _ h, ?_⟩
        intro hk
        apply hnd.1
        rw [h1, ← hk]
        exact mem_keys_of_mem t e h
    · simp only [set, h1, if_false, List.mem_cons] at h
      rcases h with h | h
      · refine Or.inr ⟨h ▸ List.mem_cons_self _ _, ?_⟩
        rw [h]
        exact h1
      · rcases ih hnd.2 h with h2 | ⟨h2, h3⟩
        · exact Or.inl h2
        · exact Or.inr ⟨List.mem_cons_of_mem _ h2, h3⟩

end GoMap

theorem selectRide_of_no_match (s : Store) (iter : List Ride) (user source destination : String)
    (seats : Int) (strategy : String)
    (h : ∀ r ∈ iter, matchesRequest source destination seats r = false) :
    selectRide s iter user source destination seats strategy
      = some (s, -1, some "no rides found") := by
  have hf : iter.filter (matchesRequest source destination seats) = [] := by
    rw [List.filter_eq_nil_iff]
    intro r hr
    rw [h r hr]
    exact Bool.false_ne_true
  unfold selectRide
  simp only [hf]

theorem selectRide_noRidesFound_inv (s : Store) (iter : List Ride)
    (user source destination : String) (seats : Int) (strategy : String) (s1 : Store) (id : Int)
    (h : selectRide s iter user source destination seats strategy
      = some (s1, id, some "no rides found")) :
    iter.filter (matchesRequest source destination seats) = [] ∧ s1 = s ∧ id = -1 := by
  unfold selectRide at h
  simp only at h
  split at h
  · rename_i hf
    simp only [Option.some.injEq, Prod.mk.injEq, and_true] at h
    exact ⟨hf, h.1.symm, h.2.symm⟩
  · split at h
    · simp at h
    · simp only [Option.some.injEq, Prod.mk.injEq] at h
      exact absurd h.2.2 (by decide)
    · split at h
      · simp at h
      · simp at h

/-- Claim C9: `selectRide` fails with the no-rides-found error exactly when no
ride of the store is active with the requested origin and destination and at
least the requested seats; it then returns -1 and the unchanged store.
Consequently, in a reachable store, once 1 seat of a ride holding 2 seats has
been selected, a request for 2 seats on that route fails with no-rides-found
when no other ride matches it. -/
theorem selectRide_noRidesFound_iff (s : Store) (iter : List Ride)
    (user source destination : String) (seats : Int) (strategy : String)
    (hiter : iter.Perm s.rides.values) :
    ((∃ s1 id, selectRide s iter user source destination seats strategy
        = some (s1, id, some "no rides found")) ↔
      ∀ r ∈ s.rides.values, ¬ (r.Active = true ∧ r.Origin = source ∧
        r.Destination = destination ∧ r.AvailableSeats ≥ seats)) ∧
    (∀ s1 id, selectRide s iter user source destination seats strategy
        = some (s1, id, some "no rides found") → s1 = s ∧ id = -1) ∧
    (∀ (s0 : Store) (iter0 : List Ride) (user0 strategy0 : String) (id0 : Int) (r0 : Ride),
      Reachable s0 → iter0.Perm s0.rides.values →
      selectRide s0 iter0 user0 source destination 1 strategy0 = some (s, id0, none) →
      s0.rides.get? id0 = some r0 → r0.AvailableSeats = 2 →
      (∀ k r, k ≠ id0 → s0.rides.get? k = some r →
        matchesRequest source destination 2 r = false) →
      selectRide s iter user source destination 2 strategy
        = some (s, -1, some "no rides found")) := by
  refine ⟨⟨?_, ?_⟩, ?_, ?_⟩
  · rintro ⟨s1, id, h⟩ r hr ⟨ha, ho, hd, hs⟩
    have hf := (selectRide_noRidesFound_inv s iter user source destination seats strategy s1 id h).1
    have hmem : r ∈ iter.filter (matchesRequest source destination seats) :=
      List.mem_filter.2 ⟨hiter.mem_iff.2 hr,
        (matchesRequest_iff source destination seats r).2 ⟨ho, hd, hs, ha⟩⟩
    rw [hf] at hmem
    exact List.not_mem_nil _ hmem
  · intro h
    refine ⟨s, -1, selectRide_of_no_match s iter user source destination seats strategy ?_⟩
    intro r hr
    cases hm : matchesRequest source destination seats r with
    | false => rfl
    | true =>
      obtain ⟨ho, hd, hs, ha⟩ := (matchesRequest_iff source destination seats r).1 hm
      exact absurd ⟨ha, ho, hd, hs⟩ (h r (hiter.mem_iff.1 hr))
  · intro s1 id h
    exact (selectRide_noRidesFound_inv s iter user source destination seats strategy s1 id h).2
  · intro s0 iter0 user0 strategy0 id0 r0 hreach hiter0 hsel hget hseats hother
    obtain ⟨r, stats1, hget1, -, -, -, hs⟩ :=
      selectRide_ok_dense s0 hreach.inv.1 iter0 user0 source destination 1 strategy0 s id0
        hiter0 hsel
    rw [hget] at hget1
    simp only [Option.some.injEq] at hget1
    subst hget1
    apply selectRide_of_no_match
    intro r hr
    have hr1 : r ∈ s.rides.values := hiter.mem_iff.1 hr
    obtain ⟨e, he, her⟩ := List.mem_map.1 hr1
    rw [hs] at he
    rcases GoMap.mem_set_wf _ hreach.inv.1.wf _ _ e he with h1 | ⟨h1, h2⟩
    · rw [← her, h1]
      simp only [matchesRequest, hseats]
      have : subInt 2 1 = 1 := by decide
      rw [this]
      simp
    · rw [← her]
      exact hother e.1 e.2 h2 (GoMap.get?_of_mem _ hreach.inv.1.wf _ _ h1)

theorem selectRide_noRidesFound_iff_witness :
    (storeOf endToEndSelect).rides.values.Perm (storeOf endToEndSelect).rides.values ∧
    Reachable endToEndStore ∧
    selectRide endToEndStore endToEndStore.rides.values "Nandini" "Hyderabad" "Bangalore" 1 ""
      = some (storeOf endToEndSelect, 0, none) ∧
    endToEndStore.rides.get? 0 = some endToEndRide ∧
    (storeOf endToEndSelect).rides.get? 0 = some { endToEndRide with AvailableSeats := 1 } ∧
    ((∃ s1 id, selectRide (storeOf endToEndSelect) (storeOf endToEndSelect).rides.values
        "Nandini" "Hyderabad" "Bangalore" 2 "" = some (s1, id, some "no rides found")) ↔
      ∀ r ∈ (storeOf endToEndSelect).rides.values, ¬ (r.Active = true ∧
        r.Origin = "Hyderabad" ∧ r.Destination = "Bangalore" ∧ r.AvailableSeats ≥ 2)) ∧
    selectRide (storeOf endToEndSelect) (storeOf endToEndSelect).rides.values "Nandini"
        "Hyderabad" "Bangalore" 2 ""
      = some (storeOf endToEndSelect, -1, some "no rides found") :=
  ⟨List.Perm.refl _, run_reachable endToEndOffers endToEndStore (by decide), by decide,
    by decide, by decide,
    (selectRide_noRidesFound_iff (storeOf endToEndSelect)
      (storeOf endToEndSelect).rides.values "Nandini" "Hyderabad" "Bangalore" 2 ""
      (List.Perm.refl _)).1,
    (selectRide_noRidesFound_iff (storeOf endToEndSelect)
      (storeOf endToEndSelect).rides.values "Nandini" "Hyderabad" "Bangalore" 2 ""
      (List.Perm.refl _)).2.2 endToEndStore endToEndStore.rides.values "Nandini" "" 0
      endToEndRide (run_reachable endToEndOffers endToEndStore (by decide)) (List.Perm.refl _)
      (by decide) (by decide) rfl
      (by
        intro k r hk hget
        have hr : endToEndStore.rides = [(0, endToEndRide)] := by decide
        have hmem := GoMap.mem_of_get? _ _ _ hget
        rw [hr, List.mem_singleton] at hmem
        exact absurd (congrArg Prod.fst hmem) hk)⟩

/-! ## Claim C10: a rejected offer changes nothing -/

theorem findVehicle_eq_none_iff (s : Store) (owner vehicleModel numberPlate : String) :
    findVehicle s owner vehicleModel numberPlate = none ↔
      ∀ v ∈ (s.ownerVehiclesMap.get? owner).getD [],
        ¬ (v.Model = vehicleModel ∧ v.NumberPlate = numberPlate) := by
  unfold findVehicle
  rw [List.find?_eq_none]
  constructor
  · intro h v hv ⟨h1, h2⟩
    exact h v hv (by simp [h1, h2])
  · intro h v hv hc
    simp only [Bool.and_eq_true, beq_iff_eq] at hc
    exact h v hv ⟨hc.1.symm, hc.2.symm⟩

theorem findVehicle_some (s : Store) (owner vehicleModel numberPlate : String) (v : Vehicle)
    (h : findVehicle s owner vehicleModel numberPlate = some v) :
    v ∈ (s.ownerVehiclesMap.get? owner).getD [] ∧ v.Model = vehicleModel ∧
      v.NumberPlate = numberPlate := by
  unfold findVehicle at h
  have h1 := List.find?_some h
  simp only [Bool.and_eq_true, beq_iff_eq] at h1
  exact ⟨List.mem_of_find?_eq_some h, h1.1.symm, h1.2.symm⟩

theorem vehicleActive_eq_true_iff (m : GoMap Int Ride) (v : Vehicle) :
    vehicleActive m v = true ↔ ∃ r ∈ m.values, r.Active = true ∧ r.Vehicle = v := by
  unfold vehicleActive
  rw [List.any_eq_true]
  constructor
  · rintro ⟨r, hr, hc⟩
    simp only [Bool.and_eq_true, beq_iff_eq] at hc
    exact ⟨r, hr, hc.2, hc.1⟩
  · rintro ⟨r, hr, ha, hv⟩
    exact ⟨r, hr, by simp [ha, hv]⟩

/-- The function `offerRide` on a line that parses into its six fields. -/
theorem offerRide_parsed (s : Store)
    (rideDetail driver f1 f2 f3 numberPlate f5 origin seatsField vehicleModel destination : String)
    (hsplit : Split rideDetail ", " = [driver, f1, f2, f3, numberPlate, f5])
    (h1 : afterEq f1 = some origin) (h2 : afterEq f2 = some seatsField)
    (h3 : afterEq f3 = some vehicleModel) (h5 : afterEq f5 = some destination) :
    offerRide s rideDetail
      = offerRideFields s driver origin (toInt seatsField) vehicleModel numberPlate
          destination := by
  unfold offerRide
  rw [hsplit]
  simp only [h1, h2, h3, h5]

/-- Claim C10: on a line that parses into driver, origin, seats, model, plate and
destination, `offerRide` returns the store it was given, with the message
"Vehicle not found", when the driver has no registered vehicle with both the
model and the plate, and with the message "Ride already active for this
vehicle" when some active ride carries a vehicle equal to the matched one (the
first of the driver's vehicles with that model and plate); so no ride is
inserted, no id is consumed and users, vehicles, rides and counters are as they
were. -/
theorem offerRide_rejected_is_atomic (s : Store)
    (rideDetail driver f1 f2 f3 numberPlate f5 origin seatsField vehicleModel destination : String)
    (hsplit : Split rideDetail ", " = [driver, f1, f2, f3, numberPlate, f5])
    (h1 : afterEq f1 = some origin) (h2 : afterEq f2 = some seatsField)
    (h3 : afterEq f3 = some vehicleModel) (h5 : afterEq f5 = some destination) :
    ((∀ v ∈ (s.ownerVehiclesMap.get? driver).getD [],
        ¬ (v.Model = vehicleModel ∧ v.NumberPlate = numberPlate)) →
      offerRide s rideDetail = some (s, "Vehicle not found")) ∧
    (∀ v, findVehicle s driver vehicleModel numberPlate = some v →
      (∃ r ∈ s.rides.values, r.Active = true ∧ r.Vehicle = v) →
      offerRide s rideDetail = some (s, "Ride already active for this vehicle")) := by
  rw [offerRide_parsed s rideDetail driver f1 f2 f3 numberPlate f5 origin seatsField vehicleModel
    destination hsplit h1 h2 h3 h5]
  constructor
  · intro hnone
    have hf := (findVehicle_eq_none_iff s driver vehicleModel numberPlate).2 hnone
    unfold offerRideFields
    rw [hf]
  · intro v hf hact
    have ha := (vehicleActive_eq_true_iff s.rides v).2 hact
    unfold offerRideFields
    rw [hf]
    simp only [ha, if_true]

theorem offerRide_rejected_is_atomic_witness :
    Split "Rohan, Origin=Mumbai, Available Seats=1, Vehicle=Swift, KA-01-12345, Destination=Delhi"
        ", "
      = ["Rohan", "Origin=Mumbai", "Available Seats=1", "Vehicle=Swift", "KA-01-12345",
          "Destination=Delhi"] ∧
    afterEq "Origin=Mumbai" = some "Mumbai" ∧ afterEq "Available Seats=1" = some "1" ∧
    afterEq "Vehicle=Swift" = some "Swift" ∧ afterEq "Destination=Delhi" = some "Delhi" ∧
    findVehicle dummyStore "Rohan" "Swift" "KA-01-12345"
      = some ⟨"Rohan", "Swift", "KA-01-12345"⟩ ∧
    (∃ r ∈ dummyStore.rides.values, r.Active = true ∧
      r.Vehicle = ⟨"Rohan", "Swift", "KA-01-12345"⟩) ∧
    offerRide dummyStore
        "Rohan, Origin=Mumbai, Available Seats=1, Vehicle=Swift, KA-01-12345, Destination=Delhi"
      = some (dummyStore, "Ride already active for this vehicle") :=
  ⟨by decide, by decide, by decide, by decide, by decide, by decide, by decide,
    (offerRide_rejected_is_atomic dummyStore
      "Rohan, Origin=Mumbai, Available Seats=1, Vehicle=Swift, KA-01-12345, Destination=Delhi"
      "Rohan" "Origin=Mumbai" "Available Seats=1" "Vehicle=Swift" "KA-01-12345"
      "Destination=Delhi" "Mumbai" "1" "Swift" "Delhi"
      (by decide) (by decide) (by decide) (by decide) (by decide)).2
      ⟨"Rohan", "Swift", "KA-01-12345"⟩ (by decide) (by decide)⟩

/-! ## Claim C2: the strategy "Preferred Vehicle=X" -/

/-- The first piece that `strings.Split(…, "=")` cuts off the front of a text. -/
theorem splitGo_eq_head (l cur : List Char) :
    ∃ tl, splitGo ['='] l 0 cur = (cur ++ l.takeWhile (fun c => c != '=')) :: tl := by
  induction l generalizing cur with
  | nil => exact ⟨[], by simp [splitGo]⟩
  | cons c rest ih =>
    by_cases hc : c = '='
    · subst hc
      exact ⟨splitGo ['='] rest 0 [], by simp [splitGo, List.isPrefixOf]⟩
    · obtain ⟨tl, htl⟩ := ih (cur ++ [c])
      refine ⟨tl, ?_⟩
      have hne : ('=' == c) = false := by
        simp [Ne.symm hc]
      simp only [splitGo, List.isPrefixOf, hne, Bool.false_and, Bool.false_eq_true, if_false, htl]
      simp [hc]

/-- Splitting at "=" a text whose first "=" comes right after `pre`. -/
theorem splitGo_eq_prefix (pre rest cur : List Char) (hpre : '=' ∉ pre) :
    splitGo ['='] (pre ++ '=' :: rest) 0 cur = (cur ++ pre) :: splitGo ['='] rest 0 [] := by
  induction pre generalizing cur with
  | nil => simp [splitGo, List.isPrefixOf]
  | cons c t ih =>
    have hc : ('=' == c) = false := by
      have : '=' ≠ c := fun e => hpre (e ▸ List.mem_cons_self _ _)
      simp [this]
    have ht : '=' ∉ t := fun h => hpre (List.mem_cons_of_mem _ h)
    simp only [List.cons_append, splitGo, List.isPrefixOf, hc, Bool.false_and,
      Bool.false_eq_true, if_false]
    have h2 := ih (cur ++ [c]) ht
    simp only [List.append_assoc, List.singleton_append] at h2
    exact h2

/-- The text of `X` before its first "=", all of `X` when it has none. -/
theorem preferredVehicle_eq (X : String) :
    (Split ("Preferred Vehicle=" ++ X) "=")[1]?
      = some (String.mk (X.data.takeWhile (fun c => c != '='))) := by
  have hdata : ("Preferred Vehicle=" ++ X).data
      = "Preferred Vehicle".data ++ '=' :: X.data := by
    rw [String.data_append]
    rfl
  have hsep : ("=" : String).data = ['='] := rfl
  unfold Split
  rw [hdata, hsep, splitGo_eq_prefix _ _ _ (by decide)]
  obtain ⟨tl, htl⟩ := splitGo_eq_head X.data []
  rw [htl]
  simp

theorem hasPrefix_preferred (X : String) :
    HasPrefix ("Preferred Vehicle=" ++ X) "Preferred Vehicle=" = true := by
  unfold HasPrefix
  rw [String.data_append, List.isPrefixOf_iff_prefix]
  exact List.prefix_append _ _

theorem preferred_ne_mostVacant (X : String) : "Preferred Vehicle=" ++ X ≠ "Most Vacant" := by
  intro h
  have h1 := congrArg (fun s => s.data.head?) h
  simp only [String.data_append] at h1
  have h2 : ("Preferred Vehicle=".data ++ X.data).head? = some 'P' := rfl
  rw [h2] at h1
  exact absurd h1 (by decide)

/-- The choice of lines 138-151 for the strategy "Preferred Vehicle=X". -/
theorem chooseRide_preferred (l : List Ride) (first : Ride) (X : String) :
    chooseRide l first ("Preferred Vehicle=" ++ X)
      = some (l.find? (fun r =>
          r.Vehicle.Model == String.mk (X.data.takeWhile (fun c => c != '=')))) := by
  unfold chooseRide
  rw [if_neg (preferred_ne_mostVacant X), if_pos (hasPrefix_preferred X)]
  rw [preferredVehicle_eq]

theorem takeWhile_ne_eq_self (l : List Char) (h : '=' ∉ l) :
    l.takeWhile (fun c => c != '=') = l := by
  rw [List.takeWhile_eq_self_iff]
  intro c hc
  have : c ≠ '=' := fun e => h (e ▸ hc)
  simp [this]

/-- Claim C2 as stated fails at two inputs.  With X = "Polo=x" no ride of the
store has the model "Polo=x", yet the call succeeds and returns ride 2, whose
model is "Polo".  With no filtered candidate at all (route Mumbai -> Mysore) the
error is "no rides found", not the preferred-vehicle error. -/
theorem preferredVehicle_claim_counterexample :
    (∀ r ∈ dummyStore.rides.values, r.Vehicle.Model ≠ "Polo=x") ∧
    dummyStore.ownerRideStats.get? "Gaurav" = some { offered := 0, taken := 0 } ∧
    (selectRide dummyStore dummyStore.rides.values "Gaurav" "Bangalore" "Mysore" 1
        ("Preferred Vehicle=" ++ "Polo=x")).map Prod.snd = some (2, none) ∧
    (dummyStore.rides.get? 2).map (fun r => r.Vehicle.Model) = some "Polo" ∧
    selectRide dummyStore dummyStore.rides.values "Gaurav" "Mumbai" "Mysore" 1
        ("Preferred Vehicle=" ++ "Polo")
      = some (dummyStore, -1, some "no rides found") :=
  ⟨by decide, by decide, by decide, by decide, by decide⟩

/-- Claim C2, amended: let `P` be the text of `X` before its first "=" (`P = X`
when `X` has none).  Under the strategy "Preferred Vehicle=" ++ X, for every
enumeration of the rides: if some filtered candidate has model `P` and the
rider has a statistics record, `selectRide` succeeds and returns the id of a
filtered candidate whose model is `P`; if filtered candidates exist but none
has model `P`, it returns -1 with the error "no rides found with the preferred
vehicle" and the unchanged store; if no filtered candidate exists it returns -1
with the error "no rides found" and the unchanged store. -/
theorem selectRide_preferred_vehicle (s : Store) (iter : List Ride)
    (user source destination : String) (seats : Int) (X : String)
    (hiter : iter.Perm s.rides.values) :
    (s.ownerRideStats.get? user ≠ none →
      (∃ r ∈ s.rides.values, matchesRequest source destination seats r = true ∧
        r.Vehicle.Model = String.mk (X.data.takeWhile (fun c => c != '='))) →
      ∃ s1 r, selectRide s iter user source destination seats ("Preferred Vehicle=" ++ X)
          = some (s1, r.ID, none) ∧
        r ∈ s.rides.values ∧ matchesRequest source destination seats r = true ∧
        r.Vehicle.Model = String.mk (X.data.takeWhile (fun c => c != '='))) ∧
    ((∃ r ∈ s.rides.values, matchesRequest source destination seats r = true) →
      (∀ r ∈ s.rides.values, matchesRequest source destination seats r = true →
        r.Vehicle.Model ≠ String.mk (X.data.takeWhile (fun c => c != '='))) →
      selectRide s iter user source destination seats ("Preferred Vehicle=" ++ X)
        = some (s, -1, some "no rides found with the preferred vehicle")) ∧
    ((∀ r ∈ s.rides.values, matchesRequest source destination seats r = false) →
      selectRide s iter user source destination seats ("Preferred Vehicle=" ++ X)
        = some (s, -1, some "no rides found")) ∧
    ('=' ∉ X.data → String.mk (X.data.takeWhile (fun c => c != '=')) = X) := by
  refine ⟨?_, ?_, ?_, ?_⟩
  · rintro hstats ⟨r, hr, hm, hmodel⟩
    have hrf : r ∈ iter.filter (matchesRequest source destination seats) :=
      List.mem_filter.2 ⟨hiter.mem_iff.2 hr, hm⟩
    cases hf : iter.filter (matchesRequest source destination seats) with
    | nil =>
      rw [hf] at hrf
      exact absurd hrf (List.not_mem_nil _)
    | cons first rest =>
      rw [hf] at hrf
      have hch := chooseRide_preferred (first :: rest) first X
      cases hfind : (first :: rest).find? (fun r =>
          r.Vehicle.Model == String.mk (X.data.takeWhile (fun c => c != '='))) with
      | none =>
        rw [List.find?_eq_none] at hfind
        exact absurd (by simp [hmodel]) (hfind r hrf)
      | some sel =>
        rw [hfind] at hch
        have hselmem : sel ∈ first :: rest := List.mem_of_find?_eq_some hfind
        have hselp := List.find?_some hfind
        simp only [beq_iff_eq] at hselp
        have hself : sel ∈ iter.filter (matchesRequest source destination seats) := by
          rw [hf]
          exact hselmem
        obtain ⟨hseliter, hselm⟩ := List.mem_filter.1 hself
        cases hu : updateTaken s.ownerRideStats user with
        | none =>
          unfold updateTaken at hu
          split at hu
          · rename_i hg
            exact absurd hg hstats
          · simp at hu
        | some stats1 =>
          refine ⟨{ s with rides := decrementSeats s.rides sel seats, ownerRideStats := stats1 },
            sel, ?_, hiter.mem_iff.1 hseliter, hselm, hselp⟩
          unfold selectRide
          simp only [hf, hch, hu]
  · rintro ⟨r, hr, hm⟩ hnone
    have hrf : r ∈ iter.filter (matchesRequest source destination seats) :=
      List.mem_filter.2 ⟨hiter.mem_iff.2 hr, hm⟩
    cases hf : iter.filter (matchesRequest source destination seats) with
    | nil =>
      rw [hf] at hrf
      exact absurd hrf (List.not_mem_nil _)
    | cons first rest =>
      have hch := chooseRide_preferred (first :: rest) first X
      have hfind : (first :: rest).find? (fun r =>
          r.Vehicle.Model == String.mk (X.data.takeWhile (fun c => c != '='))) = none := by
        rw [List.find?_eq_none]
        intro x hx
        rw [← hf] at hx
        obtain ⟨hxi, hxm⟩ := List.mem_filter.1 hx
        simpa using hnone x (hiter.mem_iff.1 hxi) hxm
      rw [hfind] at hch
      unfold selectRide
      simp only [hf, hch]
  · intro hnone
    exact selectRide_of_no_match s iter user source destination seats _
      (fun r hr => hnone r (hiter.mem_iff.1 hr))
  · intro h
    rw [takeWhile_ne_eq_self _ h]

theorem selectRide_preferred_vehicle_witness :
    dummyStore.rides.values.Perm dummyStore.rides.values ∧
    ∃ s1 r, selectRide dummyStore dummyStore.rides.values "Gaurav" "Bangalore" "Mysore" 1
        ("Preferred Vehicle=" ++ "Activa") = some (s1, r.ID, none) ∧
      r ∈ dummyStore.rides.values ∧ matchesRequest "Bangalore" "Mysore" 1 r = true ∧
      r.Vehicle.Model = String.mk ("Activa".data.takeWhile (fun c => c != '=')) :=
  ⟨List.Perm.refl _,
    (selectRide_preferred_vehicle dummyStore dummyStore.rides.values "Gaurav" "Bangalore"
      "Mysore" 1 "Activa" (List.Perm.refl _)).1 (by decide)
      ⟨⟨1, "Shipra", "Bangalore", "Mysore", 1, ⟨"Shipra", "Activa", "KA-12-12332"⟩, true⟩,
        by decide, by decide, by decide⟩⟩

/-! ## The search of `findPossibleRides` -/

theorem dfsLoop_nil (recur : String → List Ride → List (List Ride) → Option (List (List Ride)))
    (destination : String) (seats : Int) (cur : String) (path : List Ride)
    (acc : List (List Ride)) :
    dfsLoop recur destination seats cur path [] acc = some acc := rfl

theorem dfsLoop_cons (recur : String → List Ride → List (List Ride) → Option (List (List Ride)))
    (destination : String) (seats : Int) (cur : String) (path : List Ride) (r : Ride)
    (l : List Ride) (acc : List (List Ride)) :
    dfsLoop recur destination seats cur path (r :: l) acc =
      (if r.Origin = cur ∧ qualifies seats r then
        if r.Destination = destination then some (acc ++ [path ++ [r]])
        else recur r.Destination (path ++ [r]) acc
      else some acc).bind (fun acc1 => dfsLoop recur destination seats cur path l acc1) := by
  unfold dfsLoop qualifies
  rw [List.foldlM_cons]
  by_cases h1 : r.Origin = cur <;> by_cases h2 : r.Active = true <;>
    by_cases h3 : seats ≤ r.AvailableSeats <;> by_cases h4 : r.Destination = destination <;>
    simp [h1, h2, h3, h4]


theorem routeFrom_cons_iff (rides : List Ride) (destination : String) (seats : Int)
    (cur : String) (r : Ride) (tail : List Ride) :
    RouteFrom rides destination seats cur (r :: tail) ↔
      r ∈ rides ∧ qualifies seats r ∧ r.Origin = cur ∧
        ((tail = [] ∧ r.Destination = destination) ∨
          (r.Destination ≠ destination ∧
            RouteFrom rides destination seats r.Destination tail)) := by
  cases tail with
  | nil => simp [RouteFrom]
  | cons r2 t => simp [RouteFrom]

/-- What an itinerary built by the search looks like as a list. -/
theorem routeFrom_props (rides : List Ride) (destination : String) (seats : Int)
    (cur : String) (route : List Ride) (h : RouteFrom rides destination seats cur route) :
    route ≠ [] ∧ route.head?.map (fun r => r.Origin) = some cur ∧
      route.getLast?.map (fun r => r.Destination) = some destination ∧ Connected route ∧
      (∀ r ∈ route, r ∈ rides ∧ qualifies seats r) ∧
      ∀ r ∈ route.dropLast, r.Destination ≠ destination := by
  induction route generalizing cur with
  | nil => exact absurd h (by simp [RouteFrom])
  | cons r tail ih =>
    obtain ⟨hmem, hq, ho, hrest⟩ := (routeFrom_cons_iff _ _ _ _ _ _).1 h
    rcases hrest with ⟨ht, hd⟩ | ⟨hd, hrec⟩
    · subst ht
      refine ⟨by simp, by simp [ho], by simp [hd], by simp [Connected], ?_, by simp⟩
      intro x hx
      simp only [List.mem_singleton] at hx
      subst hx
      exact ⟨hmem, hq⟩
    · obtain ⟨hne, hhead, hlast, hconn, hall, hdrop⟩ := ih r.Destination hrec
      obtain ⟨r2, t, rfl⟩ := List.exists_cons_of_ne_nil hne
      refine ⟨by simp, by simp [ho], ?_, ?_, ?_, ?_⟩
      · rw [List.getLast?_cons_cons]
        exact hlast
      · simp only [List.head?_cons, Option.map_some', Option.some.injEq] at hhead
        exact List.Chain'.cons hhead.symm hconn
      · intro x hx
        rcases List.mem_cons.1 hx with h1 | h1
        · subst h1
          exact ⟨hmem, hq⟩
        · exact hall x h1
      · intro x hx
        rw [List.dropLast_cons₂] at hx
        rcases List.mem_cons.1 hx with h1 | h1
        · subst h1
          exact hd
        · exact hdrop x h1

/-- Soundness of the loop: every itinerary it appends extends `path` by a route from `cur`. -/
theorem dfsLoop_sound (rides : List Ride) (destination : String) (seats : Int)
    (recur : String → List Ride → List (List Ride) → Option (List (List Ride)))
    (hrec : ∀ loc p a o, recur loc p a = some o → ∃ new, o = a ++ new ∧
      ∀ route ∈ new, ∃ tail, route = p ++ tail ∧ RouteFrom rides destination seats loc tail)
    (cur : String) (path : List Ride) (l : List Ride) (hl : ∀ r ∈ l, r ∈ rides)
    (acc out : List (List Ride))
    (h : dfsLoop recur destination seats cur path l acc = some out) :
    ∃ new, out = acc ++ new ∧
      ∀ route ∈ new, ∃ tail, route = path ++ tail ∧
        RouteFrom rides destination seats cur tail := by
  induction l generalizing acc with
  | nil =>
    rw [dfsLoop_nil] at h
    simp only [Option.some.injEq] at h
    exact ⟨[], by simp [h], by simp⟩
  | cons r l ih =>
    rw [dfsLoop_cons] at h
    have hl1 : ∀ x ∈ l, x ∈ rides := fun x hx => hl x (List.mem_cons_of_mem _ hx)
    have hr : r ∈ rides := hl r (List.mem_cons_self _ _)
    by_cases hc : r.Origin = cur ∧ qualifies seats r
    · rw [if_pos hc] at h
      by_cases hd : r.Destination = destination
      · rw [if_pos hd] at h
        simp only [Option.some_bind] at h
        obtain ⟨new, hout, hnew⟩ := ih hl1 _ h
        refine ⟨[path ++ [r]] ++ new, by rw [hout, List.append_assoc], ?_⟩
        intro route hroute
        rcases List.mem_append.1 hroute with h1 | h1
        · simp only [List.mem_singleton] at h1
          exact ⟨[r], h1, (routeFrom_cons_iff _ _ _ _ _ _).2 ⟨hr, hc.2, hc.1, Or.inl ⟨rfl, hd⟩⟩⟩
        · exact hnew route h1
      · rw [if_neg hd] at h
        cases hrc : recur r.Destination (path ++ [r]) acc with
        | none =>
          rw [hrc] at h
          simp at h
        | some mid =>
          rw [hrc] at h
          simp only [Option.some_bind] at h
          obtain ⟨new1, hmid, hnew1⟩ := hrec _ _ _ _ hrc
          obtain ⟨new2, hout, hnew2⟩ := ih hl1 _ h
          refine ⟨new1 ++ new2, by rw [hout, hmid, List.append_assoc], ?_⟩
          intro route hroute
          rcases List.mem_append.1 hroute with h1 | h1
          · obtain ⟨tail, htail, hrt⟩ := hnew1 route h1
            refine ⟨r :: tail, by rw [htail]; simp, ?_⟩
            exact (routeFrom_cons_iff _ _ _ _ _ _).2 ⟨hr, hc.2, hc.1, Or.inr ⟨hd, hrt⟩⟩
          · exact hnew2 route h1
    · rw [if_neg hc] at h
      simp only [Option.some_bind] at h
      exact ih hl1 _ h

theorem dfs_sound (rides : List Ride) (ord : List Ride → List Ride)
    (hord : ∀ p, ∀ r ∈ ord p, r ∈ rides) (destination : String) (seats : Int) (fuel : Nat)
    (cur : String) (path : List Ride) (acc out : List (List Ride))
    (h : dfs ord destination seats fuel cur path acc = some out) :
    ∃ new, out = acc ++ new ∧
      ∀ route ∈ new, ∃ tail, route = path ++ tail ∧
        RouteFrom rides destination seats cur tail := by
  induction fuel generalizing cur path acc out with
  | zero => simp [dfs] at h
  | succ n ih =>
    rw [dfs] at h
    exact dfsLoop_sound rides destination seats _ (fun loc p a o ho => ih loc p a o ho) cur path
      (ord path) (hord path) acc out h

/-- Claim C7: whenever the search of `findPossibleRides` returns (the depth bound
is not hit), under any enumeration of the rides, every itinerary it returns is
non-empty, starts at the source, ends at the destination, connects each ride's
destination to the next ride's origin, and consists of rides of the store that
are active with at least the requested seats. -/
theorem findPossibleRides_itineraries_valid (s : Store) (ord : List Ride → List Ride)
    (fuel : Nat) (source destination : String) (seats : Int) (routes : List (List Ride))
    (hord : ∀ p, (ord p).Perm s.rides.values)
    (h : findPossibleRides ord fuel source destination seats = some routes) :
    ∀ route ∈ routes, route ≠ [] ∧
      route.head?.map (fun r => r.Origin) = some source ∧
      route.getLast?.map (fun r => r.Destination) = some destination ∧
      List.Chain' (fun a b => a.Destination = b.Origin) route ∧
      ∀ r ∈ route, r ∈ s.rides.values ∧ r.Active = true ∧ r.AvailableSeats ≥ seats := by
  intro route hroute
  obtain ⟨new, hout, hnew⟩ := dfs_sound s.rides.values ord
    (fun p r hr => (hord p).mem_iff.1 hr) destination seats fuel source [] [] routes h
  rw [hout, List.nil_append] at hroute
  obtain ⟨tail, htail, hrt⟩ := hnew route hroute
  rw [List.nil_append] at htail
  subst htail
  obtain ⟨hne, hhead, hlast, hconn, hall, -⟩ := routeFrom_props _ _ _ _ _ hrt
  exact ⟨hne, hhead, hlast, hconn, fun r hr => ⟨(hall r hr).1, (hall r hr).2.1, (hall r hr).2.2⟩⟩

/-- The loop returns, and appends exactly once each, the itineraries through the
rides of `l`, provided the recursive call does so from every next location. -/
theorem dfsLoop_exact (rides : List Ride) (destination : String) (seats : Int)
    (recur : String → List Ride → List (List Ride) → Option (List (List Ride)))
    (cur : String) (path : List Ride)
    (hrec : ∀ r ∈ rides, r.Origin = cur → qualifies seats r → r.Destination ≠ destination →
      ∀ a, ∃ new, recur r.Destination (path ++ [r]) a = some (a ++ new) ∧ new.Nodup ∧
        ∀ route, route ∈ new ↔ ∃ tail, route = (path ++ [r]) ++ tail ∧
          RouteFrom rides destination seats r.Destination tail)
    (l : List Ride) (hl : ∀ r ∈ l, r ∈ rides) (hnd : l.Nodup) (acc : List (List Ride)) :
    ∃ new, dfsLoop recur destination seats cur path l acc = some (acc ++ new) ∧ new.Nodup ∧
      ∀ route, route ∈ new ↔ ∃ r ∈ l, ∃ tail, route = path ++ r :: tail ∧
        RouteFrom rides destination seats cur (r :: tail) := by
  induction l generalizing acc with
  | nil => exact ⟨[], by simp [dfsLoop_nil], List.nodup_nil, by simp⟩
  | cons r l ih =>
    have hl1 : ∀ x ∈ l, x ∈ rides := fun x hx => hl x (List.mem_cons_of_mem _ hx)
    have hr : r ∈ rides := hl r (List.mem_cons_self _ _)
    obtain ⟨hrl, hndl⟩ := List.nodup_cons.1 hnd
    -- the itineraries through `r`
    have hthis : ∃ newr, (if r.Origin = cur ∧ qualifies seats r then
          if r.Destination = destination then some (acc ++ [path ++ [r]])
          else recur r.Destination (path ++ [r]) acc
        else some acc) = some (acc ++ newr) ∧ newr.Nodup ∧
        ∀ route, route ∈ newr ↔ ∃ tail, route = path ++ r :: tail ∧
          RouteFrom rides destination seats cur (r :: tail) := by
      by_cases hc : r.Origin = cur ∧ qualifies seats r
      · rw [if_pos hc]
        by_cases hd : r.Destination = destination
        · rw [if_pos hd]
          refine ⟨[path ++ [r]], rfl, List.nodup_singleton _, ?_⟩
          intro route
          rw [List.mem_singleton]
          constructor
          · intro h
            exact ⟨[], h, (routeFrom_cons_iff _ _ _ _ _ _).2 ⟨hr, hc.2, hc.1, Or.inl ⟨rfl, hd⟩⟩⟩
          · rintro ⟨tail, htail, hrt⟩
            obtain ⟨-, -, -, hrest⟩ := (routeFrom_cons_iff _ _ _ _ _ _).1 hrt
            rcases hrest with ⟨ht, -⟩ | ⟨hne, -⟩
            · rw [htail, ht]
            · exact absurd hd hne
        · rw [if_neg hd]
          obtain ⟨new, hnew, hnodup, hiff⟩ := hrec r hr hc.1 hc.2 hd acc
          refine ⟨new, hnew, hnodup, ?_⟩
          intro route
          rw [hiff route]
          constructor
          · rintro ⟨tail, htail, hrt⟩
            refine ⟨tail, by rw [htail]; simp, ?_⟩
            exact (routeFrom_cons_iff _ _ _ _ _ _).2 ⟨hr, hc.2, hc.1, Or.inr ⟨hd, hrt⟩⟩
          · rintro ⟨tail, htail, hrt⟩
            obtain ⟨-, -, -, hrest⟩ := (routeFrom_cons_iff _ _ _ _ _ _).1 hrt
            rcases hrest with ⟨-, hd1⟩ | ⟨-, hrt1⟩
            · exact absurd hd1 hd
            · exact ⟨tail, by rw [htail]; simp, hrt1⟩
      · rw [if_neg hc]
        refine ⟨[], by simp, List.nodup_nil, ?_⟩
        intro route
        constructor
        · intro h
          exact absurd h (List.not_mem_nil _)
        · rintro ⟨tail, -, hrt⟩
          obtain ⟨-, hq, ho, -⟩ := (routeFrom_cons_iff _ _ _ _ _ _).1 hrt
          exact absurd ⟨ho, hq⟩ hc
    obtain ⟨newr, hnewr, hndr, hiffr⟩ := hthis
    obtain ⟨newl, hnewl, hndl2, hiffl⟩ := ih hl1 hndl (acc ++ newr)
    refine ⟨newr ++ newl, ?_, ?_, ?_⟩
    · rw [dfsLoop_cons, hnewr, Option.some_bind, hnewl, List.append_assoc]
    · rw [List.nodup_append]
      refine ⟨hndr, hndl2, ?_⟩
      intro route h1 h2
      obtain ⟨t1, ht1, -⟩ := (hiffr route).1 h1
      obtain ⟨r2, hr2, t2, ht2, -⟩ := (hiffl route).1 h2
      rw [ht1] at ht2
      have := List.append_cancel_left ht2
      simp only [List.cons.injEq] at this
      exact hrl (this.1 ▸ hr2)
    · intro route
      rw [List.mem_append, hiffr route, hiffl route]
      constructor
      · rintro (⟨tail, h1, h2⟩ | ⟨r2, hr2, tail, h1, h2⟩)
        · exact ⟨r, List.mem_cons_self _ _, tail, h1, h2⟩
        · exact ⟨r2, List.mem_cons_of_mem _ hr2, tail, h1, h2⟩
      · rintro ⟨r2, hr2, tail, h1, h2⟩
        rcases List.mem_cons.1 hr2 with h3 | h3
        · subst h3
          exact Or.inl ⟨tail, h1, h2⟩
        · exact Or.inr ⟨r2, h3, tail, h1, h2⟩

/-- With enough depth for every walk from `cur`, the search returns and appends
exactly once each the itineraries from `cur`. -/
theorem dfs_exact (rides : List Ride) (hnd : rides.Nodup) (ord : List Ride → List Ride)
    (hord : ∀ p, (ord p).Perm rides) (destination : String) (seats : Int) (fuel : Nat)
    (cur : String) (path : List Ride) (acc : List (List Ride))
    (hbound : ∀ w, Walk rides destination seats cur w → w.length < fuel) :
    ∃ new, dfs ord destination seats fuel cur path acc = some (acc ++ new) ∧ new.Nodup ∧
      ∀ route, route ∈ new ↔ ∃ tail, route = path ++ tail ∧
        RouteFrom rides destination seats cur tail := by
  induction fuel generalizing cur path acc with
  | zero => exact absurd (hbound [] trivial) (Nat.lt_irrefl 0)
  | succ n ih =>
    have hrec : ∀ r ∈ rides, r.Origin = cur → qualifies seats r → r.Destination ≠ destination →
        ∀ a, ∃ new, dfs ord destination seats n r.Destination (path ++ [r]) a = some (a ++ new) ∧
          new.Nodup ∧ ∀ route, route ∈ new ↔ ∃ tail, route = (path ++ [r]) ++ tail ∧
            RouteFrom rides destination seats r.Destination tail := by
      intro r hr ho hq hd a
      apply ih
      intro w hw
      have := hbound (r :: w) ⟨hr, hq, ho, hd, hw⟩
      simp only [List.length_cons] at this
      omega
    obtain ⟨new, hnew, hnodup, hiff⟩ := dfsLoop_exact rides destination seats
      (dfs ord destination seats n) cur path hrec (ord path)
      (fun r hr => (hord path).mem_iff.1 hr) ((hord path).nodup_iff.2 hnd) acc
    refine ⟨new, by rw [dfs]; exact hnew, hnodup, ?_⟩
    intro route
    rw [hiff route]
    constructor
    · rintro ⟨r, -, tail, h1, h2⟩
      exact ⟨r :: tail, h1, h2⟩
    · rintro ⟨tail, h1, h2⟩
      cases tail with
      | nil => exact absurd h2 (by simp [RouteFrom])
      | cons r t =>
        obtain ⟨hr, -⟩ := (routeFrom_cons_iff _ _ _ _ _ _).1 h2
        exact ⟨r, (hord path).mem_iff.2 hr, t, h1, h2⟩

/-! ## Walks, cycles and the depth of the search -/

theorem endLoc_cons (cur : String) (r : Ride) (w : List Ride) :
    endLoc cur (r :: w) = endLoc r.Destination w := by
  cases w with
  | nil => simp [endLoc]
  | cons r2 t =>
    unfold endLoc
    rw [List.getLast?_cons_cons]
    cases hl : (r2 :: t).getLast? with
    | none => exact absurd (List.getLast?_eq_none_iff.1 hl) (by simp)
    | some x => simp

theorem getLast?_map_eq_endLoc (cur : String) (w : List Ride) (h : w ≠ []) :
    w.getLast?.map (fun r => r.Destination) = some (endLoc cur w) := by
  cases hl : w.getLast? with
  | none => exact absurd (List.getLast?_eq_none_iff.1 hl) h
  | some x => simp [endLoc, hl]

theorem walk_append (rides : List Ride) (destination : String) (seats : Int) (cur : String)
    (a b : List Ride) :
    Walk rides destination seats cur (a ++ b) ↔
      Walk rides destination seats cur a ∧ Walk rides destination seats (endLoc cur a) b := by
  induction a generalizing cur with
  | nil => simp [Walk, endLoc]
  | cons r t ih =>
    rw [List.cons_append, endLoc_cons]
    constructor
    · rintro ⟨hr, hq, ho, hd, hw⟩
      obtain ⟨h1, h2⟩ := (ih r.Destination).1 hw
      exact ⟨⟨hr, hq, ho, hd, h1⟩, h2⟩
    · rintro ⟨⟨hr, hq, ho, hd, h1⟩, h2⟩
      exact ⟨hr, hq, ho, hd, (ih r.Destination).2 ⟨h1, h2⟩⟩

theorem walk_props (rides : List Ride) (destination : String) (seats : Int) (cur : String)
    (w : List Ride) (h : Walk rides destination seats cur w) :
    (∀ r ∈ w, r ∈ rides ∧ qualifies seats r) ∧ Connected w ∧
      w.head?.map (fun r => r.Origin) = (if w = [] then none else some cur) := by
  induction w generalizing cur with
  | nil => simp [Connected]
  | cons r t ih =>
    obtain ⟨hr, hq, ho, -, hw⟩ := h
    obtain ⟨hall, hconn, hhead⟩ := ih r.Destination hw
    refine ⟨?_, ?_, by simp [ho]⟩
    · intro x hx
      rcases List.mem_cons.1 hx with h1 | h1
      · subst h1
        exact ⟨hr, hq⟩
      · exact hall x h1
    · cases t with
      | nil => simp [Connected]
      | cons r2 t2 =>
        simp only [List.head?_cons, Option.map_some', reduceCtorEq, if_false,
          Option.some.injEq] at hhead
        exact List.Chain'.cons hhead.symm hconn

/-- Without a cycle among the qualifying rides no walk repeats a ride. -/
theorem walk_nodup (rides : List Ride) (destination : String) (seats : Int)
    (hacyclic : ∀ c, ¬ IsCycle rides seats c) (cur : String) (w : List Ride)
    (h : Walk rides destination seats cur w) : w.Nodup := by
  induction w generalizing cur with
  | nil => exact List.nodup_nil
  | cons r t ih =>
    have ht : Walk rides destination seats r.Destination t := h.2.2.2.2
    refine List.nodup_cons.2 ⟨?_, ih r.Destination ht⟩
    intro hmem
    obtain ⟨t1, t2, hsplit⟩ := List.append_of_mem hmem
    have hw : Walk rides destination seats cur ((r :: t1) ++ (r :: t2)) := by
      rw [List.cons_append, ← hsplit]
      exact h
    obtain ⟨hw1, hw2⟩ := (walk_append _ _ _ _ _ _).1 hw
    obtain ⟨hall, hconn, -⟩ := walk_props _ _ _ _ _ hw1
    have hlink : r.Origin = endLoc cur (r :: t1) := hw2.2.2.1
    apply hacyclic (r :: t1)
    refine ⟨by simp, hall, hconn, ?_⟩
    rw [getLast?_map_eq_endLoc cur (r :: t1) (by simp), ← hlink]
    simp

theorem walk_length_le (rides : List Ride) (destination : String) (seats : Int)
    (hacyclic : ∀ c, ¬ IsCycle rides seats c) (cur : String) (w : List Ride)
    (h : Walk rides destination seats cur w) : w.length ≤ rides.length :=
  (List.subperm_of_subset (walk_nodup rides destination seats hacyclic cur w h)
    (fun r hr => ((walk_props _ _ _ _ _ h).1 r hr).1)).length_le

/-- A ranking of the places that every qualifying ride climbs rules out cycles. -/
theorem acyclic_of_rank (rides : List Ride) (seats : Int) (rank : String → Nat)
    (hrank : ∀ r ∈ rides, rank r.Origin < rank r.Destination) :
    ∀ c, ¬ IsCycle rides seats c := by
  have key : ∀ (c : List Ride) (first : Ride), (∀ r ∈ first :: c, r ∈ rides) →
      Connected (first :: c) → rank first.Origin < rank (endLoc first.Origin (first :: c)) := by
    intro c
    induction c with
    | nil =>
      intro first hall _
      simpa [endLoc] using hrank first (hall first (List.mem_cons_self _ _))
    | cons r2 t ih =>
      intro first hall hconn
      have h1 := hrank first (hall first (List.mem_cons_self _ _))
      have hlink : first.Destination = r2.Origin := (List.chain'_cons.1 hconn).1
      have h2 := ih r2 (fun r hr => hall r (List.mem_cons_of_mem _ hr))
        (List.chain'_cons.1 hconn).2
      rw [endLoc_cons, endLoc_cons] at *
      rw [hlink] at h1
      omega
  intro c hc
  obtain ⟨hne, hall, hconn, hclose⟩ := hc
  obtain ⟨first, t, rfl⟩ := List.exists_cons_of_ne_nil hne
  have h1 := key t first (fun r hr => (hall r hr).1) hconn
  rw [getLast?_map_eq_endLoc first.Origin (first :: t) (by simp)] at hclose
  simp only [List.head?_cons, Option.map_some', Option.some.injEq] at hclose
  rw [hclose] at h1
  exact Nat.lt_irrefl _ h1

/-- The recursive and the list description of an itinerary agree. -/
theorem routeFrom_iff_isItinerary (rides : List Ride) (source destination : String)
    (seats : Int) (route : List Ride) :
    RouteFrom rides destination seats source route ↔
      IsItinerary rides source destination seats route := by
  constructor
  · intro h
    obtain ⟨h1, h2, h3, h4, h5, h6⟩ := routeFrom_props _ _ _ _ _ h
    exact ⟨h1, h5, h2, h3, h4, h6⟩
  · intro h
    induction route generalizing source with
    | nil => exact absurd rfl h.1
    | cons r t ih =>
      obtain ⟨-, hall, hhead, hlast, hconn, hdrop⟩ := h
      have hr := hall r (List.mem_cons_self _ _)
      have ho : r.Origin = source := by
        simpa using hhead
      rw [routeFrom_cons_iff]
      refine ⟨hr.1, hr.2, ho, ?_⟩
      cases t with
      | nil =>
        left
        exact ⟨rfl, by simpa using hlast⟩
      | cons r2 t2 =>
        right
        have hd : r.Destination ≠ destination :=
          hdrop r (by rw [List.dropLast_cons₂]; exact List.mem_cons_self _ _)
        refine ⟨hd, ih r.Destination ⟨by simp, ?_, ?_, ?_, ?_, ?_⟩⟩
        · exact fun x hx => hall x (List.mem_cons_of_mem _ hx)
        · simpa using ((List.chain'_cons.1 hconn).1).symm
        · rw [List.getLast?_cons_cons] at hlast
          exact hlast
        · exact (List.chain'_cons.1 hconn).2
        · intro x hx
          exact hdrop x (by rw [List.dropLast_cons₂]; exact List.mem_cons_of_mem _ hx)

/-! ## Claims C7 (witness) and C8 -/

theorem findPossibleRides_itineraries_valid_witness :
    (∀ p : List Ride, ((fun _ => dummyStore.rides.values) p).Perm dummyStore.rides.values) ∧
    findPossibleRides (fun _ => dummyStore.rides.values) 4 "Mumbai" "Mysore" 1
      = some (dummyRoutes.getD []) ∧
    (dummyRoutes.getD []).map (fun route => route.map (fun r => r.ID)) = [[5, 4, 1], [5, 4, 2]] ∧
    ∀ route ∈ dummyRoutes.getD [], route ≠ [] ∧
      route.head?.map (fun r => r.Origin) = some "Mumbai" ∧
      route.getLast?.map (fun r => r.Destination) = some "Mysore" ∧
      List.Chain' (fun a b => a.Destination = b.Origin) route ∧
      ∀ r ∈ route, r ∈ dummyStore.rides.values ∧ r.Active = true ∧ r.AvailableSeats ≥ 1 :=
  ⟨fun _ => List.Perm.refl _, by decide, by decide,
    findPossibleRides_itineraries_valid dummyStore (fun _ => dummyStore.rides.values) 4 "Mumbai"
      "Mysore" 1 (dummyRoutes.getD []) (fun _ => List.Perm.refl _) (by decide)⟩

/-- In a store with dense ids no two entries hold the same ride. -/
theorem DenseIds.values_nodup {m : GoMap Int Ride} (h : DenseIds m) : m.values.Nodup := by
  have hm : m.Nodup := List.Nodup.of_map Prod.fst h.wf
  refine List.Nodup.map_on ?_ hm
  intro e1 he1 e2 he2 heq
  exact Prod.ext (by rw [← h.2 e1 he1, ← h.2 e2 he2, heq]) heq

/-- Claim C8: in a store whose rides are pairwise distinct and whose qualifying
rides (active, at least `seats` seats) contain no cycle, under every enumeration
of the rides and every depth bound above the number of rides, the search of
`findPossibleRides` returns, and its result contains exactly once each every
itinerary in the sense of `IsItinerary` (a non-empty connected chain of
qualifying rides from the source to the destination in which no ride before
the last arrives at the destination) and nothing else.  With only R1 (A -> B,
1 seat) and R2 (B -> C, 1 seat) offered, the search from A to C for 1 seat
returns exactly [[R1, R2]] under both enumerations. -/
theorem findPossibleRides_complete (s : Store) (ord : List Ride → List Ride)
    (source destination : String) (seats : Int)
    (hord : ∀ p, (ord p).Perm s.rides.values) (hdistinct : s.rides.values.Nodup)
    (hacyclic : ∀ c, ¬ IsCycle s.rides.values seats c) :
    (∀ fuel, s.rides.length < fuel →
      ∃ routes, findPossibleRides ord fuel source destination seats = some routes ∧
        routes.Nodup ∧
        ∀ route, route ∈ routes ↔
          IsItinerary s.rides.values source destination seats route) ∧
    twoLegStore.rides.values = [legR1, legR2] ∧
    findPossibleRides (fun _ => [legR1, legR2]) 3 "A" "C" 1 = some [[legR1, legR2]] ∧
    findPossibleRides (fun _ => [legR2, legR1]) 3 "A" "C" 1 = some [[legR1, legR2]] := by
  refine ⟨?_, by decide, by decide, by decide⟩
  intro fuel hfuel
  have hbound : ∀ w, Walk s.rides.values destination seats source w → w.length < fuel := by
    intro w hw
    have := walk_length_le _ _ _ hacyclic source w hw
    simp only [GoMap.values, List.length_map] at this
    omega
  obtain ⟨new, hnew, hnodup, hiff⟩ := dfs_exact s.rides.values hdistinct ord hord destination
    seats fuel source [] [] hbound
  refine ⟨new, by simpa [findPossibleRides] using hnew, hnodup, ?_⟩
  intro route
  rw [hiff route, ← routeFrom_iff_isItinerary]
  simp

theorem findPossibleRides_complete_witness :
    (∀ p : List Ride, ((fun _ => twoLegStore.rides.values) p).Perm twoLegStore.rides.values) ∧
    twoLegStore.rides.values.Nodup ∧
    (∀ c, ¬ IsCycle twoLegStore.rides.values 1 c) ∧
    ∃ routes, findPossibleRides (fun _ => twoLegStore.rides.values) 3 "A" "C" 1 = some routes ∧
      routes.Nodup ∧
      ∀ route, route ∈ routes ↔ IsItinerary twoLegStore.rides.values "A" "C" 1 route :=
  ⟨fun _ => List.Perm.refl _, by decide,
    acyclic_of_rank _ _ legRank (by decide),
    (findPossibleRides_complete twoLegStore (fun _ => twoLegStore.rides.values) "A" "C" 1
      (fun _ => List.Perm.refl _) (by decide)
      (acyclic_of_rank _ _ legRank (by decide))).1 3 (by decide)⟩

/-! ## Claims C12, C13: `endRide` -/

/-- Claim C12: for every store and every ride id that is negative or at least the
number of rides, `endRide` reports "Invalid ride ID" and returns the store it
was given, so rides, vehicles, users and statistics are unchanged. -/
theorem endRide_invalid_id (s : Store) (rideID : Int)
    (h : rideID < 0 ∨ rideID ≥ s.rides.len) :
    endRide s rideID = (s, "Invalid ride ID") := by
  unfold endRide
  rw [if_pos h]

theorem endRide_invalid_id_witness :
    ((6 : Int) < 0 ∨ (6 : Int) ≥ dummyStore.rides.len) ∧
    endRide dummyStore 6 = (dummyStore, "Invalid ride ID") :=
  ⟨by decide, endRide_invalid_id dummyStore 6 (by decide)⟩

namespace GoMap

variable {κ α : Type} [DecidableEq κ]

theorem set_set (m : GoMap κ α) (k : κ) (v : α) : (m.set k v).set k v = m.set k v := by
  induction m with
  | nil => simp [set]
  | cons e t ih =>
    obtain ⟨k1, v1⟩ := e
    by_cases h : k1 = k
    · simp [set, h]
    · simp [set, h, ih]

end GoMap

theorem endRide_of_get (s : Store) (rideID : Int) (r : Ride)
    (hvalid : ¬ (rideID < 0 ∨ rideID ≥ s.rides.len)) (hg : s.rides.get? rideID = some r) :
    (endRide s rideID).1 = { s with rides := s.rides.set r.ID { r with Active := false } } := by
  unfold endRide
  rw [if_neg hvalid]
  simp only [hg, Option.getD_some]

/-- Claim C13: in every reachable store, for a ride id in [0, number of rides),
`endRide` finds a ride `r` under that id and afterwards the id holds `r` with
only `Active` changed, to false; every other key holds what it held, the keys
and the number of rides, the users, the vehicles and all statistics are
unchanged; and ending the same ride again returns the same store. -/
theorem endRide_deactivates_only (s : Store) (hs : Reachable s) (rideID : Int)
    (h0 : 0 ≤ rideID) (h1 : rideID < s.rides.len) :
    ∃ r, s.rides.get? rideID = some r ∧
      (endRide s rideID).1.rides.get? rideID = some { r with Active := false } ∧
      (∀ k, k ≠ rideID → (endRide s rideID).1.rides.get? k = s.rides.get? k) ∧
      (endRide s rideID).1.rides.keys = s.rides.keys ∧
      (endRide s rideID).1.rides.len = s.rides.len ∧
      (endRide s rideID).1.ownerRideStats = s.ownerRideStats ∧
      (endRide s rideID).1.nameUserMap = s.nameUserMap ∧
      (endRide s rideID).1.ownerVehiclesMap = s.ownerVehiclesMap ∧
      (endRide (endRide s rideID).1 rideID).1 = (endRide s rideID).1 := by
  have hd := hs.inv.1
  have hk : rideID ∈ s.rides.keys := (hd.mem_keys_iff rideID).2 ⟨h0, h1⟩
  have hvalid : ¬ (rideID < 0 ∨ rideID ≥ s.rides.len) := by omega
  cases hg : s.rides.get? rideID with
  | none => exact absurd hk ((GoMap.get?_eq_none_iff _ _).1 hg)
  | some r =>
    have hid : r.ID = rideID := hd.2 _ (GoMap.mem_of_get? _ _ _ hg)
    have hs1 : (endRide s rideID).1
        = { s with rides := s.rides.set rideID { r with Active := false } } := by
      rw [endRide_of_get s rideID r hvalid hg, hid]
    have hget1 : (endRide s rideID).1.rides.get? rideID = some { r with Active := false } := by
      rw [hs1]
      exact GoMap.get?_set_same _ _ _
    have hlen : (endRide s rideID).1.rides.len = s.rides.len := by
      rw [hs1]
      simp only [GoMap.len, GoMap.length_set_of_mem _ _ _ hk]
    refine ⟨r, rfl, hget1, ?_, ?_, hlen, by rw [hs1], by rw [hs1], by rw [hs1], ?_⟩
    · intro k hne
      rw [hs1]
      exact GoMap.get?_set_other _ _ _ _ hne
    · rw [hs1]
      exact GoMap.keys_set_of_mem _ _ _ hk
    · have hvalid1 : ¬ (rideID < 0 ∨ rideID ≥ (endRide s rideID).1.rides.len) := by
        rw [hlen]
        exact hvalid
      rw [endRide_of_get (endRide s rideID).1 rideID { r with Active := false } hvalid1 hget1]
      rw [hs1]
      simp only [hid, GoMap.set_set]

theorem endRide_deactivates_only_witness :
    Reachable dummyStore ∧ (0 : Int) ≤ 2 ∧ (2 : Int) < dummyStore.rides.len ∧
    ∃ r, dummyStore.rides.get? 2 = some r ∧
      (endRide dummyStore 2).1.rides.get? 2 = some { r with Active := false } ∧
      (∀ k, k ≠ 2 → (endRide dummyStore 2).1.rides.get? k = dummyStore.rides.get? k) ∧
      (endRide dummyStore 2).1.rides.keys = dummyStore.rides.keys ∧
      (endRide dummyStore 2).1.rides.len = dummyStore.rides.len ∧
      (endRide dummyStore 2).1.ownerRideStats = dummyStore.ownerRideStats ∧
      (endRide dummyStore 2).1.nameUserMap = dummyStore.nameUserMap ∧
      (endRide dummyStore 2).1.ownerVehiclesMap = dummyStore.ownerVehiclesMap ∧
      (endRide (endRide dummyStore 2).1 2).1 = (endRide dummyStore 2).1 :=
  ⟨dummyStore_reachable, by decide, by decide,
    endRide_deactivates_only dummyStore dummyStore_reachable 2 (by decide) (by decide)⟩

/-! ## Claims C14, C19: writes into a missing statistics record -/

/-- Claim C14, the code at a failing input: on the store of `addDummyData`, where
two rides Bangalore -> Mysore pass the filter, a selection by "Zoya", who has no
statistics record, ends in a run-time panic (the write of line 159 into the nil
map) instead of returning a ride. -/
theorem selectRide_unregistered_rider_panics :
    Reachable dummyStore ∧
    dummyStore.ownerRideStats.get? "Zoya" = none ∧
    (dummyStore.rides.values.filter (matchesRequest "Bangalore" "Mysore" 1)).map
        (fun r => r.ID) = [1, 2] ∧
    selectRide dummyStore dummyStore.rides.values "Zoya" "Bangalore" "Mysore" 1 "Most Vacant"
      = none :=
  ⟨dummyStore_reachable, by decide, by decide, by decide⟩

/-- Claim C19, the code at a failing input: "Asha" was never registered but owns
the vehicle (Polo, KA-09-1111), which no ride carries; her offer ends in a
run-time panic (the increment of line 104 writes into the nil map) instead of
completing. -/
theorem offerRide_unregistered_driver_panics :
    Reachable unregisteredOwnerStore ∧
    unregisteredOwnerStore.nameUserMap.get? "Asha" = none ∧
    unregisteredOwnerStore.ownerRideStats.get? "Asha" = none ∧
    findVehicle unregisteredOwnerStore "Asha" "Polo" "KA-09-1111"
      = some ⟨"Asha", "Polo", "KA-09-1111"⟩ ∧
    vehicleActive unregisteredOwnerStore.rides ⟨"Asha", "Polo", "KA-09-1111"⟩ = false ∧
    offerRide unregisteredOwnerStore
        "Asha, Origin=A, Available Seats=1, Vehicle=Polo, KA-09-1111, Destination=B"
      = none :=
  ⟨run_reachable unregisteredOwnerSetup unregisteredOwnerStore (by decide), by decide,
    by decide, by decide, by decide, by decide⟩

/-! ## Claim C17: `addUser` -/

/-- The function `addUser` on a line that splits into three fields. -/
theorem addUser_parsed (s : Store) (userDetail name gender age : String)
    (hsplit : Split userDetail ", " = [name, gender, age]) :
    addUser s userDetail =
      ({ s with
          nameUserMap := s.nameUserMap.set name { Name := name, Gender := gender, Age := toInt age },
          ownerRideStats := s.ownerRideStats.set name { offered := 0, taken := 0 } },
        "User added:") := by
  unfold addUser
  rw [hsplit]

/-- The function `addUser` either leaves the store alone or registers a user. -/
theorem addUser_cases (s : Store) (userDetail : String) :
    (addUser s userDetail).1 = s ∨ ∃ name gender age,
      Split userDetail ", " = [name, gender, age] := by
  unfold addUser
  split
  · rename_i name gender age h
    exact Or.inr ⟨name, gender, age, h⟩
  · exact Or.inl rfl

/-- Claim C17: for every store and every line that splits into name, gender and
age, `addUser` stores the user under the name (replacing any earlier record),
sets the statistics of that name to offered = 0 and taken = 0 whatever they
were, and leaves the record and the statistics of every other name, all vehicles
and all rides unchanged. -/
theorem addUser_registers_and_resets (s : Store) (userDetail name gender age : String)
    (hsplit : Split userDetail ", " = [name, gender, age]) :
    (addUser s userDetail).1.nameUserMap.get? name
      = some { Name := name, Gender := gender, Age := toInt age } ∧
    (addUser s userDetail).1.ownerRideStats.get? name = some { offered := 0, taken := 0 } ∧
    (∀ k, k ≠ name →
      (addUser s userDetail).1.nameUserMap.get? k = s.nameUserMap.get? k) ∧
    (∀ k, k ≠ name →
      (addUser s userDetail).1.ownerRideStats.get? k = s.ownerRideStats.get? k) ∧
    (addUser s userDetail).1.ownerVehiclesMap = s.ownerVehiclesMap ∧
    (addUser s userDetail).1.rides = s.rides := by
  rw [addUser_parsed s userDetail name gender age hsplit]
  refine ⟨GoMap.get?_set_same _ _ _, GoMap.get?_set_same _ _ _, ?_, ?_, rfl, rfl⟩
  · intro k hk
    exact GoMap.get?_set_other _ _ _ _ hk
  · intro k hk
    exact GoMap.get?_set_other _ _ _ _ hk

theorem addUser_registers_and_resets_witness :
    Split "Rohan, M, 37" ", " = ["Rohan", "M", "37"] ∧
    dummyStore.ownerRideStats.get? "Rohan" = some { offered := 2, taken := 0 } ∧
    (addUser dummyStore "Rohan, M, 37").1.nameUserMap.get? "Rohan"
      = some { Name := "Rohan", Gender := "M", Age := toInt "37" } ∧
    (addUser dummyStore "Rohan, M, 37").1.ownerRideStats.get? "Rohan"
      = some { offered := 0, taken := 0 } ∧
    (∀ k, k ≠ "Rohan" →
      (addUser dummyStore "Rohan, M, 37").1.nameUserMap.get? k = dummyStore.nameUserMap.get? k) ∧
    (∀ k, k ≠ "Rohan" →
      (addUser dummyStore "Rohan, M, 37").1.ownerRideStats.get? k
        = dummyStore.ownerRideStats.get? k) ∧
    (addUser dummyStore "Rohan, M, 37").1.ownerVehiclesMap = dummyStore.ownerVehiclesMap ∧
    (addUser dummyStore "Rohan, M, 37").1.rides = dummyStore.rides :=
  ⟨by decide, by decide,
    addUser_registers_and_resets dummyStore "Rohan, M, 37" "Rohan" "M" "37" (by decide)⟩

/-! ## Claim C16: dense ride ids -/

/-- An offer that does not print the success message returns the store it was given. -/
theorem offerRide_rejected_same (s : Store) (rideDetail : String) (s1 : Store) (msg : String)
    (h : offerRide s rideDetail = some (s1, msg))
    (hmsg : msg ≠ "Ride offered:: and ride details:: ") : s1 = s := by
  unfold offerRide at h
  split at h
  · split at h
    · unfold offerRideFields at h
      split at h
      · simp only [Option.some.injEq, Prod.mk.injEq] at h
        exact h.1.symm
      · split at h
        · simp only [Option.some.injEq, Prod.mk.injEq] at h
          exact h.1.symm
        · simp only at h
          split at h
          · simp at h
          · simp only [Option.some.injEq, Prod.mk.injEq] at h
            exact absurd h.2.symm hmsg
    · simp at h
  · simp only [Option.some.injEq, Prod.mk.injEq] at h
    exact h.1.symm

/-- Claim C16: in every store reachable from the empty store the keys of `rides`
are exactly 0, …, n-1 for n the number of rides, no key occurs twice, every ride
carries the key it is stored under as its `ID`, and an offer that is rejected
returns the same store, so it leaves n unchanged and consumes no id. -/
theorem reachable_dense_ride_ids (s : Store) (hs : Reachable s) :
    (∀ k, k ∈ s.rides.keys ↔ 0 ≤ k ∧ k < s.rides.len) ∧
    s.rides.keys.Nodup ∧
    (∀ k r, s.rides.get? k = some r → r.ID = k) ∧
    (∀ rideDetail s1 msg, offerRide s rideDetail = some (s1, msg) →
      msg ≠ "Ride offered:: and ride details:: " → s1 = s ∧ s1.rides.len = s.rides.len) := by
  have hd := hs.inv.1
  refine ⟨fun k => hd.mem_keys_iff k, hd.wf, ?_, ?_⟩
  · intro k r hg
    exact hd.2 (k, r) (GoMap.mem_of_get? _ _ _ hg)
  · intro rideDetail s1 msg h hmsg
    have := offerRide_rejected_same s rideDetail s1 msg h hmsg
    exact ⟨this, by rw [this]⟩

theorem reachable_dense_ride_ids_witness :
    Reachable dummyStore ∧ dummyStore.rides.keys = [0, 1, 2, 3, 4, 5] ∧
    (∀ k, k ∈ dummyStore.rides.keys ↔ 0 ≤ k ∧ k < dummyStore.rides.len) ∧
    dummyStore.rides.keys.Nodup ∧
    (∀ k r, dummyStore.rides.get? k = some r → r.ID = k) ∧
    (∀ rideDetail s1 msg, offerRide dummyStore rideDetail = some (s1, msg) →
      msg ≠ "Ride offered:: and ride details:: " →
      s1 = dummyStore ∧ s1.rides.len = dummyStore.rides.len) :=
  ⟨dummyStore_reachable, by decide, reachable_dense_ride_ids dummyStore dummyStore_reachable⟩

/-! ## Claim C11: an accepted offer -/

namespace GoMap

variable {κ α : Type} [DecidableEq κ]

theorem get?_set_ne_none (m : GoMap κ α) (k k2 : κ) (v : α) (h : m.get? k2 ≠ none) :
    (m.set k v).get? k2 ≠ none := by
  by_cases hk : k2 = k
  · rw [hk, get?_set_same]
    exact fun e => Option.noConfusion e
  · rw [get?_set_other _ _ _ _ hk]
    exact h

end GoMap

theorem selectRide_err_store (s : Store) (iter : List Ride) (user source destination : String)
    (seats : Int) (strategy : String) (s1 : Store) (id : Int) (e : String)
    (h : selectRide s iter user source destination seats strategy = some (s1, id, some e)) :
    s1 = s := by
  unfold selectRide at h
  simp only at h
  split at h
  · simp only [Option.some.injEq, Prod.mk.injEq] at h
    exact h.1.symm
  · split at h
    · simp at h
    · simp only [Option.some.injEq, Prod.mk.injEq] at h
      exact h.1.symm
    · split at h
      · simp at h
      · simp at h

theorem incOffered_some (stats : GoMap String Stats) (driver : String)
    (stats1 : GoMap String Stats) (h : incOffered stats driver = some stats1) :
    ∃ st, stats.get? driver = some st ∧
      stats1 = stats.set driver { st with offered := st.offered + 1 } := by
  unfold incOffered at h
  split at h
  · simp at h
  · rename_i st hst
    simp only [Option.some.injEq] at h
    exact ⟨st, hst, h.symm⟩

theorem updateTaken_some (stats : GoMap String Stats) (user : String)
    (stats1 : GoMap String Stats) (h : updateTaken stats user = some stats1) :
    stats.get? user ≠ none ∧ stats1 = stats.set user { offered := 0, taken := 0 + 1 } := by
  unfold updateTaken at h
  split at h
  · simp at h
  · rename_i st hst
    simp only [Option.some.injEq] at h
    exact ⟨by rw [hst]; exact fun e => Option.noConfusion e, h.symm⟩

/-- In every reachable store each registered user has a statistics record. -/
theorem Reachable.statsForUsers {s : Store} (h : Reachable s) : StatsForUsers s := by
  induction h with
  | empty =>
    intro name hn
    exact absurd rfl hn
  | addUser s d _ ih =>
    rcases addUser_cases s d with h1 | ⟨name, gender, age, hsplit⟩
    · rw [h1]
      exact ih
    · rw [addUser_parsed s d name gender age hsplit]
      intro k hk
      by_cases hkn : k = name
      · simp only [hkn, GoMap.get?_set_same]
        exact fun e => Option.noConfusion e
      · simp only [GoMap.get?_set_other _ _ _ _ hkn] at hk ⊢
        exact ih k hk
  | addVehicle s d _ ih =>
    have h1 : (RideSharing.addVehicle s d).1.nameUserMap = s.nameUserMap ∧
        (RideSharing.addVehicle s d).1.ownerRideStats = s.ownerRideStats := by
      unfold RideSharing.addVehicle
      split <;> exact ⟨rfl, rfl⟩
    intro k hk
    rw [h1.2]
    rw [h1.1] at hk
    exact ih k hk
  | offerRide s d s1 msg _ hoff ih =>
    rcases offerRide_cases s d s1 msg hoff with h1 | ⟨driver, origin, seats, model, plate, dest, h1⟩
    · rw [h1]
      exact ih
    · rcases offerRideFields_cases s driver origin (toInt seats) model plate dest s1 msg h1 with
        h2 | ⟨v, stats1, -, -, hinc, h2⟩
      · rw [h2]
        exact ih
      · obtain ⟨st, -, hst1⟩ := incOffered_some _ _ _ hinc
        rw [h2, hst1]
        intro k hk
        exact GoMap.get?_set_ne_none _ _ _ _ (ih k hk)
  | selectRide s iter user source destination seats strategy s1 id err _ _ hsel ih =>
    cases err with
    | some e =>
      rw [selectRide_err_store s iter user source destination seats strategy s1 id e hsel]
      exact ih
    | none =>
      obtain ⟨first, rest, sel, stats1, -, -, hu, hs1, -⟩ :=
        selectRide_ok s iter user source destination seats strategy s1 id hsel
      obtain ⟨-, hst1⟩ := updateTaken_some _ _ _ hu
      rw [hs1, hst1]
      intro k hk
      exact GoMap.get?_set_ne_none _ _ _ _ (ih k hk)
  | endRide s rideID _ ih =>
    have h1 : (RideSharing.endRide s rideID).1.nameUserMap = s.nameUserMap ∧
        (RideSharing.endRide s rideID).1.ownerRideStats = s.ownerRideStats := by
      unfold RideSharing.endRide
      split <;> exact ⟨rfl, rfl⟩
    intro k hk
    rw [h1.2]
    rw [h1.1] at hk
    exact ih k hk

/-- Claim C11: in every reachable store, on a line that parses into driver,
origin, seats, model, plate and destination, when the driver is registered, `v`
is the driver's matching vehicle and no active ride carries a vehicle equal to
`v`, `offerRide` succeeds: the key n = number of rides before the call was free
and now holds the ride with id n, active, with the given driver, origin,
destination, parsed seat count and vehicle `v`; the number of rides grows by
one; every other key holds what it held; the driver's `offered` counter is one
more than before while `taken` and every other user's counters, the users and
the vehicles are unchanged. -/
theorem offerRide_accepted_inserts_ride (s : Store) (hs : Reachable s)
    (rideDetail driver f1 f2 f3 numberPlate f5 origin seatsField vehicleModel destination : String)
    (v : Vehicle)
    (hsplit : Split rideDetail ", " = [driver, f1, f2, f3, numberPlate, f5])
    (h1 : afterEq f1 = some origin) (h2 : afterEq f2 = some seatsField)
    (h3 : afterEq f3 = some vehicleModel) (h5 : afterEq f5 = some destination)
    (hreg : s.nameUserMap.get? driver ≠ none)
    (hfind : findVehicle s driver vehicleModel numberPlate = some v)
    (hfree : ∀ r ∈ s.rides.values, r.Active = true → r.Vehicle ≠ v) :
    ∃ s1 st, s.ownerRideStats.get? driver = some st ∧
      offerRide s rideDetail = some (s1, "Ride offered:: and ride details:: ") ∧
      s.rides.get? s.rides.len = none ∧
      s1.rides.get? s.rides.len = some
        { ID := s.rides.len, Driver := driver, Origin := origin, Destination := destination,
          AvailableSeats := toInt seatsField, Vehicle := v, Active := true } ∧
      s1.rides.len = s.rides.len + 1 ∧
      (∀ k, k ≠ s.rides.len → s1.rides.get? k = s.rides.get? k) ∧
      s1.ownerRideStats.get? driver = some { st with offered := st.offered + 1 } ∧
      (∀ u, u ≠ driver → s1.ownerRideStats.get? u = s.ownerRideStats.get? u) ∧
      s1.nameUserMap = s.nameUserMap ∧ s1.ownerVehiclesMap = s.ownerVehiclesMap := by
  have hd := hs.inv.1
  have hstats := hs.statsForUsers driver hreg
  cases hst : s.ownerRideStats.get? driver with
  | none => exact absurd hst hstats
  | some st =>
    have hact : vehicleActive s.rides v = false := by
      cases hva : vehicleActive s.rides v with
      | false => rfl
      | true =>
        obtain ⟨r, hr, ha, hv⟩ := (vehicleActive_eq_true_iff s.rides v).1 hva
        exact absurd hv (hfree r hr ha)
    have hnew : s.rides.len ∉ s.rides.keys := by
      intro hk
      have := (hd.mem_keys_iff _).1 hk
      simp [GoMap.len] at this
    have hoffer : offerRide s rideDetail = some
        ({ s with
            rides := s.rides.set s.rides.len
              { ID := s.rides.len, Driver := driver, Origin := origin,
                Destination := destination, AvailableSeats := toInt seatsField, Vehicle := v,
                Active := true },
            ownerRideStats := s.ownerRideStats.set driver { st with offered := st.offered + 1 } },
          "Ride offered:: and ride details:: ") := by
      rw [offerRide_parsed s rideDetail driver f1 f2 f3 numberPlate f5 origin seatsField
        vehicleModel destination hsplit h1 h2 h3 h5]
      unfold offerRideFields
      rw [hfind]
      simp only [hact, Bool.false_eq_true, if_false, incOffered, hst]
    refine ⟨_, st, rfl, hoffer, (GoMap.get?_eq_none_iff _ _).2 hnew,
      GoMap.get?_set_same _ _ _, ?_, ?_, GoMap.get?_set_same _ _ _, ?_, rfl, rfl⟩
    · have hl : ∀ ride : Ride, (s.rides.set s.rides.len ride).length = s.rides.length + 1 := by
        intro ride
        rw [GoMap.set_of_not_mem _ _ _ hnew]
        simp
      show ((s.rides.set s.rides.len _).length : Int) = (s.rides.length : Int) + 1
      rw [hl]
      push_cast
      rfl
    · intro k hk
      exact GoMap.get?_set_other _ _ _ _ hk
    · intro u hu
      exact GoMap.get?_set_other _ _ _ _ hu

theorem offerRide_accepted_inserts_ride_witness :
    Reachable registeredStore ∧
    Split "Rohan, Origin=Hyderabad, Available Seats=2, Vehicle=Swift, KA-01-12345, Destination=Bangalore"
        ", "
      = ["Rohan", "Origin=Hyderabad", "Available Seats=2", "Vehicle=Swift", "KA-01-12345",
          "Destination=Bangalore"] ∧
    afterEq "Origin=Hyderabad" = some "Hyderabad" ∧ afterEq "Available Seats=2" = some "2" ∧
    afterEq "Vehicle=Swift" = some "Swift" ∧
    afterEq "Destination=Bangalore" = some "Bangalore" ∧
    registeredStore.nameUserMap.get? "Rohan" ≠ none ∧
    findVehicle registeredStore "Rohan" "Swift" "KA-01-12345"
      = some ⟨"Rohan", "Swift", "KA-01-12345"⟩ ∧
    (∀ r ∈ registeredStore.rides.values, r.Active = true →
      r.Vehicle ≠ ⟨"Rohan", "Swift", "KA-01-12345"⟩) ∧
    ∃ s1 st, registeredStore.ownerRideStats.get? "Rohan" = some st ∧
      offerRide registeredStore
          "Rohan, Origin=Hyderabad, Available Seats=2, Vehicle=Swift, KA-01-12345, Destination=Bangalore"
        = some (s1, "Ride offered:: and ride details:: ") ∧
      s1.rides.get? registeredStore.rides.len = some
        { ID := registeredStore.rides.len, Driver := "Rohan", Origin := "Hyderabad",
          Destination := "Bangalore", AvailableSeats := toInt "2",
          Vehicle := ⟨"Rohan", "Swift", "KA-01-12345"⟩, Active := true } ∧
      s1.ownerRideStats.get? "Rohan" = some { st with offered := st.offered + 1 } :=
  ⟨run_reachable registeredSetup registeredStore (by decide), by decide, by decide, by decide,
    by decide, by decide, by decide, by decide, by decide,
    (offerRide_accepted_inserts_ride registeredStore
      (run_reachable registeredSetup registeredStore (by decide))
      "Rohan, Origin=Hyderabad, Available Seats=2, Vehicle=Swift, KA-01-12345, Destination=Bangalore"
      "Rohan" "Origin=Hyderabad" "Available Seats=2" "Vehicle=Swift" "KA-01-12345"
      "Destination=Bangalore" "Hyderabad" "2" "Swift" "Bangalore"
      ⟨"Rohan", "Swift", "KA-01-12345"⟩
      (by decide) (by decide) (by decide) (by decide) (by decide) (by decide) (by decide)
      (by decide)).imp
      (fun _ h => h.imp (fun _ h2 => ⟨h2.1, h2.2.1, h2.2.2.2.1, h2.2.2.2.2.2.2.1⟩))⟩

/-! ## Claim C15: ties under "Most Vacant" -/

/-- The loop of lines 131-137 either keeps its initial ride, no ride of the list
exceeding the initial maximum, or stops on the first ride of the list that holds
the strictly greatest seat count. -/
theorem mostVacantLoop_first_max (l : List Ride) (init : Ride) (m : Int) :
    ((mostVacantLoop l (init, m)).1 = init ∧ ∀ r ∈ l, r.AvailableSeats ≤ m) ∨
    ∃ pre post, l = pre ++ (mostVacantLoop l (init, m)).1 :: post ∧
      (mostVacantLoop l (init, m)).1.AvailableSeats > m ∧
      (∀ r ∈ pre, r.AvailableSeats < (mostVacantLoop l (init, m)).1.AvailableSeats) ∧
      ∀ r ∈ post, r.AvailableSeats ≤ (mostVacantLoop l (init, m)).1.AvailableSeats := by
  induction l generalizing init m with
  | nil => exact Or.inl ⟨rfl, by simp⟩
  | cons r t ih =>
    have step : mostVacantLoop (r :: t) (init, m)
        = mostVacantLoop t (if r.AvailableSeats > m then (r, r.AvailableSeats) else (init, m)) :=
      rfl
    rw [step]
    by_cases hc : r.AvailableSeats > m
    · rw [if_pos hc]
      rcases ih r r.AvailableSeats with ⟨h1, h2⟩ | ⟨pre, post, h1, h2, h3, h4⟩
      · refine Or.inr ⟨[], t, by rw [h1]; rfl, by rw [h1]; exact hc, by simp, ?_⟩
        rw [h1]
        exact h2
      · refine Or.inr ⟨r :: pre, post, by rw [List.cons_append, ← h1], by omega, ?_, h4⟩
        intro x hx
        rcases List.mem_cons.1 hx with hx1 | hx1
        · rw [hx1]
          exact h2
        · exact h3 x hx1
    · rw [if_neg hc]
      rcases ih init m with ⟨h1, h2⟩ | ⟨pre, post, h1, h2, h3, h4⟩
      · refine Or.inl ⟨h1, ?_⟩
        intro x hx
        rcases List.mem_cons.1 hx with hx1 | hx1
        · rw [hx1]
          omega
        · exact h2 x hx1
      · refine Or.inr ⟨r :: pre, post, by rw [List.cons_append, ← h1], h2, ?_, h4⟩
        intro x hx
        rcases List.mem_cons.1 hx with hx1 | hx1
        · rw [hx1]
          omega
        · exact h3 x hx1

/-- Claim C15: whenever `selectRide` with "Most Vacant" succeeds, the filtered
candidates, in the order the loop met them, split into the candidates before the
selected ride, the selected ride (the one whose id is returned and whose seats
are decremented) and the rest, and no candidate before the selected ride has
the same `AvailableSeats` as it: a later candidate with an equal seat count
never replaces an earlier one. -/
theorem mostVacant_ties_keep_earliest (s : Store) (iter : List Ride)
    (user source destination : String) (seats : Int) (s1 : Store) (id : Int)
    (h : selectRide s iter user source destination seats "Most Vacant" = some (s1, id, none)) :
    ∃ pre sel post,
      iter.filter (matchesRequest source destination seats) = pre ++ sel :: post ∧
      sel.ID = id ∧ s1.rides = decrementSeats s.rides sel seats ∧
      ∀ r ∈ pre, r.AvailableSeats ≠ sel.AvailableSeats := by
  obtain ⟨first, rest, sel, stats1, hf, hc, -, hs1, hid⟩ :=
    selectRide_ok s iter user source destination seats "Most Vacant" s1 id h
  have hsel : sel = (mostVacantLoop (first :: rest) (first, 0)).1 := by
    unfold chooseRide at hc
    rw [if_pos rfl] at hc
    simp only [Option.some.injEq] at hc
    exact hc.symm
  have hrides : s1.rides = decrementSeats s.rides sel seats := by
    rw [hs1]
  rcases mostVacantLoop_first_max (first :: rest) first 0 with ⟨h1, -⟩ | ⟨pre, post, h1, -, h3, -⟩
  · refine ⟨[], sel, rest, ?_, hid.symm, hrides, by simp⟩
    rw [hf, hsel, h1]
    rfl
  · refine ⟨pre, sel, post, ?_, hid.symm, hrides, ?_⟩
    · rw [hf, hsel]
      exact h1
    · intro r hr
      rw [hsel]
      exact ne_of_lt (h3 r hr)

theorem mostVacant_ties_keep_earliest_witness :
    selectRide dummyStore dummyStore.rides.values "Nandini" "Bangalore" "Mysore" 1 "Most Vacant"
      = some (storeOf nandiniSelect, 2, none) ∧
    ∃ pre sel post,
      dummyStore.rides.values.filter (matchesRequest "Bangalore" "Mysore" 1)
        = pre ++ sel :: post ∧
      sel.ID = 2 ∧ (storeOf nandiniSelect).rides = decrementSeats dummyStore.rides sel 1 ∧
      ∀ r ∈ pre, r.AvailableSeats ≠ sel.AvailableSeats :=
  ⟨by decide,
    mostVacant_ties_keep_earliest dummyStore dummyStore.rides.values "Nandini" "Bangalore"
      "Mysore" 1 (storeOf nandiniSelect) 2 (by decide)⟩

/-! ## Claim C18: the filter is the seat floor -/

/-- Claim C18 as stated is false: in no store whose rides sit under their own
ids (every reachable store is one) does `selectRide` succeed on a ride whose
`AvailableSeats`, non-negative before the call, is below the requested seat
count and below zero afterwards. -/
theorem no_selection_below_requested_seats :
    ¬ ∃ (s : Store) (iter : List Ride) (user source destination : String) (seats : Int)
        (strategy : String) (s1 : Store) (id : Int) (r r1 : Ride),
      DenseIds s.rides ∧ iter.Perm s.rides.values ∧
      selectRide s iter user source destination seats strategy = some (s1, id, none) ∧
      s.rides.get? id = some r ∧ 0 ≤ r.AvailableSeats ∧ r.AvailableSeats < seats ∧
      s1.rides.get? id = some r1 ∧ r1.AvailableSeats < 0 := by
  rintro ⟨s, iter, user, source, destination, seats, strategy, s1, id, r, r1, hd, hiter, hsel,
    hget, -, hlt, -, -⟩
  obtain ⟨sel, stats1, hget1, -, hm, -, -⟩ :=
    selectRide_ok_dense s hd iter user source destination seats strategy s1 id hiter hsel
  rw [hget] at hget1
  simp only [Option.some.injEq] at hget1
  subst hget1
  obtain ⟨-, -, hge, -⟩ := (matchesRequest_iff source destination seats r).1 hm
  omega

/-- Claim C18, amended: in every reachable store a successful `selectRide` picks a
ride `r` with `r.AvailableSeats ≥ seats` and leaves it with `r.AvailableSeats -
seats` in Go's `int` arithmetic, which is the exact difference and not below
zero whenever that difference is below 2^63, in particular for every
non-negative request.  Only the wrap-around of the subtraction leaves a ride
below zero: on `overflowStore` the ride holds 2^63 - 1 seats, a request for -1
seats succeeds and leaves it with -2^63. -/
theorem selectRide_seat_floor (s : Store) (hs : Reachable s) (iter : List Ride)
    (user source destination : String) (seats : Int) (strategy : String) (s1 : Store) (id : Int)
    (hiter : iter.Perm s.rides.values)
    (h : selectRide s iter user source destination seats strategy = some (s1, id, none)) :
    (∃ r, s.rides.get? id = some r ∧ r.AvailableSeats ≥ seats ∧
      s1.rides.get? id = some { r with AvailableSeats := subInt r.AvailableSeats seats } ∧
      (r.AvailableSeats - seats < 2 ^ 63 →
        subInt r.AvailableSeats seats = r.AvailableSeats - seats ∧
          0 ≤ subInt r.AvailableSeats seats) ∧
      (0 ≤ seats → subInt r.AvailableSeats seats = r.AvailableSeats - seats ∧
        0 ≤ subInt r.AvailableSeats seats)) ∧
    Reachable overflowStore ∧
    (overflowStore.rides.get? 0).map (fun r => r.AvailableSeats) = some 9223372036854775807 ∧
    overflowSelect.map (fun res => (res.2, (res.1.rides.get? 0).map (fun r => r.AvailableSeats)))
      = some ((0, none), some (-9223372036854775808)) := by
  refine ⟨?_, run_reachable overflowOffers overflowStore (by decide), by decide, by decide⟩
  obtain ⟨r, stats1, hget, -, hm, -, hs1⟩ :=
    selectRide_ok_dense s hs.inv.1 iter user source destination seats strategy s1 id hiter h
  obtain ⟨-, -, hge, -⟩ := (matchesRequest_iff source destination seats r).1 hm
  have hr : InRange64 r.AvailableSeats := hs.inv.2.2 (id, r) (GoMap.mem_of_get? _ _ _ hget)
  refine ⟨r, hget, hge, ?_, ?_, ?_⟩
  · rw [hs1]
    exact GoMap.get?_set_same _ _ _
  · intro hlt
    have := subInt_of_lt _ _ hge hlt
    exact ⟨this, by rw [this]; omega⟩
  · intro h0
    have hlt : r.AvailableSeats - seats < 2 ^ 63 := by
      unfold InRange64 at hr
      omega
    have := subInt_of_lt _ _ hge hlt
    exact ⟨this, by rw [this]; omega⟩

theorem selectRide_seat_floor_witness :
    Reachable dummyStore ∧ dummyStore.rides.values.Perm dummyStore.rides.values ∧
    selectRide dummyStore dummyStore.rides.values "Nandini" "Bangalore" "Mysore" 1 "Most Vacant"
      = some (storeOf nandiniSelect, 2, none) ∧
    ∃ r, dummyStore.rides.get? 2 = some r ∧ r.AvailableSeats ≥ 1 ∧
      (storeOf nandiniSelect).rides.get? 2
        = some { r with AvailableSeats := subInt r.AvailableSeats 1 } ∧
      (r.AvailableSeats - 1 < 2 ^ 63 →
        subInt r.AvailableSeats 1 = r.AvailableSeats - 1 ∧ 0 ≤ subInt r.AvailableSeats 1) ∧
      ((0 : Int) ≤ 1 →
        subInt r.AvailableSeats 1 = r.AvailableSeats - 1 ∧ 0 ≤ subInt r.AvailableSeats 1) :=
  ⟨dummyStore_reachable, List.Perm.refl _, by decide,
    (selectRide_seat_floor dummyStore dummyStore_reachable dummyStore.rides.values "Nandini"
      "Bangalore" "Mysore" 1 "Most Vacant" (storeOf nandiniSelect) 2 (List.Perm.refl _)
      (by decide)).1⟩

/-! ## Claim C20: termination of the search -/

theorem endLoc_append (cur : String) (a b : List Ride) :
    endLoc cur (a ++ b) = endLoc (endLoc cur a) b := by
  induction a generalizing cur with
  | nil => simp [endLoc]
  | cons r t ih => rw [List.cons_append, endLoc_cons, endLoc_cons, ih]

/-- The chain of a reachable cycle is a cycle among the qualifying rides. -/
theorem ReachableCycle.isCycle {rides : List Ride} {destination : String} {seats : Int}
    {source : String} {pre c : List Ride}
    (h : ReachableCycle rides destination seats source pre c) : IsCycle rides seats c := by
  obtain ⟨hne, hw, hclose⟩ := h
  obtain ⟨-, hwc⟩ := (walk_append _ _ _ _ _ _).1 hw
  obtain ⟨hall, hconn, -⟩ := walk_props _ _ _ _ _ hwc
  exact ⟨hne, hall, hconn, hclose⟩

/-- Without a reachable cycle no walk from `source` repeats a ride. -/
theorem walk_nodup_from (rides : List Ride) (destination : String) (seats : Int)
    (source : String)
    (hacyclic : ∀ pre c, ¬ ReachableCycle rides destination seats source pre c)
    (pre w : List Ride) (h : Walk rides destination seats source (pre ++ w)) : w.Nodup := by
  induction w generalizing pre with
  | nil => exact List.nodup_nil
  | cons r t ih =>
    have ht : t.Nodup := by
      apply ih (pre ++ [r])
      rw [List.append_assoc]
      exact h
    refine List.nodup_cons.2 ⟨?_, ht⟩
    intro hmem
    obtain ⟨t1, t2, hsplit⟩ := List.append_of_mem hmem
    have hw : Walk rides destination seats source ((pre ++ (r :: t1)) ++ (r :: t2)) := by
      rw [List.append_assoc, List.cons_append, ← hsplit]
      exact h
    obtain ⟨hw1, hw2⟩ := (walk_append _ _ _ _ _ _).1 hw
    have hlink : r.Origin = endLoc source (pre ++ (r :: t1)) := hw2.2.2.1
    apply hacyclic pre (r :: t1)
    refine ⟨by simp, hw1, ?_⟩
    rw [getLast?_map_eq_endLoc (endLoc source pre) (r :: t1) (by simp), ← endLoc_append, ← hlink]
    simp

/-- The loop returns when every recursive call it makes returns. -/
theorem dfsLoop_some (destination : String) (seats : Int)
    (recur : String → List Ride → List (List Ride) → Option (List (List Ride)))
    (cur : String) (path : List Ride) (l : List Ride)
    (hrec : ∀ r ∈ l, r.Origin = cur → qualifies seats r → r.Destination ≠ destination →
      ∀ a, ∃ o, recur r.Destination (path ++ [r]) a = some o)
    (acc : List (List Ride)) :
    ∃ out, dfsLoop recur destination seats cur path l acc = some out := by
  induction l generalizing acc with
  | nil => exact ⟨acc, dfsLoop_nil _ _ _ _ _ _⟩
  | cons r t ih =>
    have ht := ih (fun x hx => hrec x (List.mem_cons_of_mem _ hx))
    rw [dfsLoop_cons]
    by_cases hc : r.Origin = cur ∧ qualifies seats r
    · rw [if_pos hc]
      by_cases hd : r.Destination = destination
      · rw [if_pos hd]
        exact ht _
      · rw [if_neg hd]
        obtain ⟨o, ho⟩ := hrec r (List.mem_cons_self _ _) hc.1 hc.2 hd acc
        rw [ho]
        exact ht o
    · rw [if_neg hc]
      exact ht acc

/-- The search returns when its depth bound exceeds every walk from `cur`. -/
theorem dfs_some_of_bound (rides : List Ride) (ord : List Ride → List Ride)
    (hord : ∀ p, ∀ r ∈ ord p, r ∈ rides) (destination : String) (seats : Int) (fuel : Nat)
    (cur : String) (path : List Ride) (acc : List (List Ride))
    (hbound : ∀ w, Walk rides destination seats cur w → w.length < fuel) :
    ∃ out, dfs ord destination seats fuel cur path acc = some out := by
  induction fuel generalizing cur path acc with
  | zero => exact absurd (hbound [] trivial) (Nat.lt_irrefl 0)
  | succ n ih =>
    rw [dfs]
    apply dfsLoop_some
    intro r hr ho hq hd a
    apply ih
    intro w hw
    have := hbound (r :: w) ⟨hord path r hr, hq, ho, hd, hw⟩
    simp only [List.length_cons] at this
    omega

/-- The loop hits the depth bound when one of its recursive calls always does. -/
theorem dfsLoop_none (destination : String) (seats : Int)
    (recur : String → List Ride → List (List Ride) → Option (List (List Ride)))
    (cur : String) (path : List Ride) (l : List Ride) (r : Ride) (hr : r ∈ l)
    (ho : r.Origin = cur) (hq : qualifies seats r) (hd : r.Destination ≠ destination)
    (hrec : ∀ a, recur r.Destination (path ++ [r]) a = none) (acc : List (List Ride)) :
    dfsLoop recur destination seats cur path l acc = none := by
  induction l generalizing acc with
  | nil => exact absurd hr (List.not_mem_nil _)
  | cons x t ih =>
    rw [dfsLoop_cons]
    by_cases hx : x = r
    · subst hx
      rw [if_pos ⟨ho, hq⟩, if_neg hd, hrec acc]
      rfl
    · have hrt : r ∈ t := by
        rcases List.mem_cons.1 hr with h1 | h1
        · exact absurd h1.symm hx
        · exact h1
      cases hstep : (if x.Origin = cur ∧ qualifies seats x then
          if x.Destination = destination then some (acc ++ [path ++ [x]])
          else recur x.Destination (path ++ [x]) acc
        else some acc) with
      | none => rfl
      | some acc1 =>
        rw [Option.some_bind]
        exact ih hrt acc1

/-- The search hits every depth bound that some walk from `cur` reaches. -/
theorem dfs_none_of_walk (rides : List Ride) (ord : List Ride → List Ride)
    (hord : ∀ p, ∀ r ∈ rides, r ∈ ord p) (destination : String) (seats : Int) (fuel : Nat)
    (cur : String) (path : List Ride) (acc : List (List Ride)) (w : List Ride)
    (hw : Walk rides destination seats cur w) (hlen : fuel ≤ w.length) :
    dfs ord destination seats fuel cur path acc = none := by
  induction fuel generalizing cur path acc w with
  | zero => rfl
  | succ n ih =>
    cases w with
    | nil => simp at hlen
    | cons r t =>
      obtain ⟨hr, hq, ho, hd, ht⟩ := hw
      rw [dfs]
      apply dfsLoop_none destination seats _ cur path (ord path) r (hord path r hr) ho hq hd
      intro a
      exact ih r.Destination (path ++ [r]) a t ht (by simpa using hlen)

/-- Around a reachable cycle there are walks from `source` of every length. -/
theorem walk_of_reachableCycle (rides : List Ride) (destination : String) (seats : Int)
    (source : String) (pre c : List Ride)
    (h : ReachableCycle rides destination seats source pre c) (k : Nat) :
    ∃ w, Walk rides destination seats source w ∧ k ≤ w.length := by
  obtain ⟨hne, hw, hclose⟩ := h
  obtain ⟨hwpre, hwc⟩ := (walk_append _ _ _ _ _ _).1 hw
  have hback : endLoc (endLoc source pre) c = endLoc source pre := by
    have h1 := getLast?_map_eq_endLoc (endLoc source pre) c hne
    have h2 := (walk_props _ _ _ _ _ hwc).2.2
    rw [if_neg hne] at h2
    rw [h1, h2] at hclose
    exact Option.some.inj hclose
  have hloop : ∀ n : Nat, ∃ w, Walk rides destination seats (endLoc source pre) w ∧
      endLoc (endLoc source pre) w = endLoc source pre ∧ n ≤ w.length := by
    intro n
    induction n with
    | zero => exact ⟨[], trivial, by simp [endLoc], Nat.zero_le _⟩
    | succ m ih =>
      obtain ⟨w, hw1, hw2, hw3⟩ := ih
      refine ⟨c ++ w, (walk_append _ _ _ _ _ _).2 ⟨hwc, by rw [hback]; exact hw1⟩, ?_, ?_⟩
      · rw [endLoc_append, hback, hw2]
      · have : 0 < c.length := List.length_pos.2 hne
        simp only [List.length_append]
        omega
  obtain ⟨w, hw1, -, hw3⟩ := hloop k
  refine ⟨pre ++ w, (walk_append _ _ _ _ _ _).2 ⟨hwpre, hw1⟩, ?_⟩
  simp only [List.length_append]
  omega

/-- Claim C20: for every store and every enumeration of its rides, when the
active rides with at least `seats` seats that do not arrive at the destination
form no cycle reachable from the source, every chain of recursive calls of the
search is at most as long as the number of rides, and the search of
`findPossibleRides` returns for every depth bound above that number.  The
search has no guard of its own: when such a cycle is reachable it hits every
depth bound, so it does not terminate. -/
theorem findPossibleRides_terminates (s : Store) (ord : List Ride → List Ride)
    (source destination : String) (seats : Int)
    (hord : ∀ p, (ord p).Perm s.rides.values) :
    ((∀ pre c, ¬ ReachableCycle s.rides.values destination seats source pre c) →
      (∀ w, Walk s.rides.values destination seats source w → w.length ≤ s.rides.length) ∧
      ∀ fuel, s.rides.length < fuel →
        ∃ routes, findPossibleRides ord fuel source destination seats = some routes) ∧
    ((∃ pre c, ReachableCycle s.rides.values destination seats source pre c) →
      ∀ fuel, findPossibleRides ord fuel source destination seats = none) := by
  constructor
  · intro hacyclic
    have hlen : ∀ w, Walk s.rides.values destination seats source w →
        w.length ≤ s.rides.length := by
      intro w hw
      have hnd := walk_nodup_from _ _ _ _ hacyclic [] w hw
      have hsub : w ⊆ s.rides.values := fun r hr => ((walk_props _ _ _ _ _ hw).1 r hr).1
      have := (List.subperm_of_subset hnd hsub).length_le
      simpa [GoMap.values] using this
    refine ⟨hlen, ?_⟩
    intro fuel hfuel
    exact dfs_some_of_bound s.rides.values ord (fun p r hr => (hord p).mem_iff.1 hr) destination
      seats fuel source [] [] (fun w hw => Nat.lt_of_le_of_lt (hlen w hw) hfuel)
  · rintro ⟨pre, c, hcyc⟩ fuel
    obtain ⟨w, hw, hlen⟩ := walk_of_reachableCycle _ _ _ _ pre c hcyc fuel
    exact dfs_none_of_walk s.rides.values ord (fun p r hr => (hord p).mem_iff.2 hr) destination
      seats fuel source [] [] w hw hlen

theorem findPossibleRides_terminates_witness :
    (∀ p : List Ride, ((fun _ => twoLegStore.rides.values) p).Perm twoLegStore.rides.values) ∧
    (∀ pre c, ¬ ReachableCycle twoLegStore.rides.values "C" 1 "A" pre c) ∧
    (∀ fuel, twoLegStore.rides.length < fuel →
      ∃ routes, findPossibleRides (fun _ => twoLegStore.rides.values) fuel "A" "C" 1
        = some routes) ∧
    (∀ p : List Ride, ((fun _ => cycleStore.rides.values) p).Perm cycleStore.rides.values) ∧
    ReachableCycle cycleStore.rides.values "C" 1 "A" [] [cycleAB, cycleBA] ∧
    ∀ fuel, findPossibleRides (fun _ => cycleStore.rides.values) fuel "A" "C" 1 = none :=
  ⟨fun _ => List.Perm.refl _,
    fun _ c h => acyclic_of_rank _ 1 legRank (by decide) c h.isCycle,
    ((findPossibleRides_terminates twoLegStore (fun _ => twoLegStore.rides.values) "A" "C" 1
      (fun _ => List.Perm.refl _)).1
      (fun _ c h => acyclic_of_rank _ 1 legRank (by decide) c h.isCycle)).2,
    fun _ => List.Perm.refl _,
    ⟨by simp, ⟨by decide, ⟨rfl, by decide⟩, rfl, by decide,
      by decide, ⟨rfl, by decide⟩, rfl, by decide, trivial⟩, rfl⟩,
    (findPossibleRides_terminates cycleStore (fun _ => cycleStore.rides.values) "A" "C" 1
      (fun _ => List.Perm.refl _)).2
      ⟨[], [cycleAB, cycleBA], by simp, ⟨by decide, ⟨rfl, by decide⟩, rfl, by decide,
        by decide, ⟨rfl, by decide⟩, rfl, by decide, trivial⟩, rfl⟩⟩

end RideSharing
